import Mathlib

/-!
# Mini-Unix-Shell: a shallow embedding of `shell.c`

The development follows the C source function by function.

* C strings are lists of characters (without the terminating NUL).
* `pid_t` and `int` values are mathematical integers; signed overflow is
  undefined behaviour in C and lies outside the embedding.
* The globals `job_list`, `next_job_id` and `children_pending`, the text
  written to the diagnostic stream, and the part of the operating-system
  state the shell can observe (open descriptors, pipes, child processes)
  are the fields of one state record `Shell`, threaded through every
  function.
* What the operating system answers (`fork`, `pipe`, `chdir`, `getenv`) is
  read from an environment record `Env`; `pipe` hands out the two lowest
  unused descriptors.
* Each function is the main control flow of the shell process running it
  from call to return; `sigchld_handler` is a function of its own on the
  same state. The child's side of `fork` runs in another process and is
  recorded as a `Child` entry of the state.
* A loop `for (i = 0; i < MAX_JOBS; i++)` that leaves at its first hit is
  `first_index`; a `strtok_r` loop runs over the list of tokens the
  successive calls return.
-/

namespace MiniShell

/-! ## Configuration constants (lines 13-16) -/

/-- Maximum input line length. -/
def MAX_LINE : Nat := 1024

/-- Maximum arguments per command. -/
def MAX_ARGS : Nat := 64

/-- Maximum number of background jobs. -/
def MAX_JOBS : Nat := 10

/-- Maximum number of commands in a pipeline. -/
def MAX_COMMANDS : Nat := 10

/-- Descriptor number of standard input. -/
def STDIN_FILENO : Nat := 0

/-- Descriptor number of standard output. -/
def STDOUT_FILENO : Nat := 1

/-! ## Job management structure (lines 19-31) -/

/-- The enumeration `job_status`; `RUNNING` has the value 0. -/
inductive job_status where
  | RUNNING
  | STOPPED
  | DONE
  deriving DecidableEq, Repr

/-- The record `job_t`. -/
structure job_t where
  pid : Int
  id : Int
  command : List Char
  status : job_status
  deriving DecidableEq, Repr

/-- A slot after `memset(&job_list[i], 0, sizeof(job_t))`. -/
def zero_job : job_t :=
  { pid := 0, id := 0, command := [], status := job_status.RUNNING }

/-- Signals the shell sends. -/
inductive Signal where
  | SIGTERM
  | SIGCONT
  deriving DecidableEq, Repr

/-- Lines the shell writes to `stderr`, one constructor per format string. -/
inductive Diag where
  /-- The line `[%d] %d` of `add_job`. -/
  | job_started (id pid : Int)
  /-- The line `Error: Job list full.` -/
  | job_list_full
  /-- The line `[%d] %s %s` of `print_jobs`. -/
  | job_line (id : Int) (status_str : List Char) (command : List Char)
  /-- The line `No background jobs.` -/
  | no_background_jobs
  /-- The line `Job [%d] (%d) Done: %s`. -/
  | job_done (id pid : Int) (command : List Char)
  /-- The line `Job [%d] (%d) Stopped: %s`. -/
  | job_stopped (id pid : Int) (command : List Char)
  /-- The line `Syntax error: Missing input file.` -/
  | missing_input_file
  /-- The line `Syntax error: Missing output file.` -/
  | missing_output_file
  /-- A `perror` call with the given prefix. -/
  | perror (what : List Char)
  /-- The line `Exiting mini-shell.` -/
  | exiting
  /-- The line `Bringing job [%d] (%d) to foreground: %s`. -/
  | bringing_to_foreground (id pid : Int) (command : List Char)
  /-- The line `shell: fg: No such job: %s`. -/
  | fg_no_such_job (job_id_str : List Char)
  /-- The line `shell: fg: usage: fg <job_id>`. -/
  | fg_usage
  deriving DecidableEq, Repr

/-- Where a child process takes its standard input or output from. -/
inductive Stream where
  /-- The descriptor inherited from the shell unchanged. -/
  | inherited
  /-- A descriptor of the shell duplicated over the standard stream. -/
  | fd (n : Nat)
  /-- A file opened by name; `append` tells `O_APPEND` from `O_TRUNC`. -/
  | file (path : List Char) (append : Bool)
  deriving DecidableEq, Repr

/-- A child process created by `fork`, as the operating system knows it. -/
structure Child where
  /-- The process id `fork` returned to the shell. -/
  pid : Int
  /-- The argument vector handed to `execvp`. -/
  argv : List (List Char)
  /-- What the child installs as standard input (lines 238-249). -/
  stdin : Stream
  /-- What the child installs as standard output (lines 251-268). -/
  stdout : Stream
  /-- Whether the shell has issued a blocking `waitpid(pid, &status, 0)` on it. -/
  waited : Bool
  deriving DecidableEq, Repr

/-- The state threaded through the shell's functions. -/
structure Shell where
  /-- The global `job_list[MAX_JOBS]`. -/
  job_list : List job_t
  /-- The global `next_job_id`. -/
  next_job_id : Int
  /-- The global `children_pending`. -/
  children_pending : Int
  /-- Everything written to `stderr`, oldest first. -/
  stderr : List Diag
  /-- The descriptors open in the shell process. -/
  open_fds : List Nat
  /-- The pipes created by `pipe`, oldest first, as (read end, write end). -/
  pipes : List (Nat × Nat)
  /-- The child processes created by `fork`, oldest first. -/
  children : List Child
  /-- The number of `fork` calls made so far. -/
  fork_calls : Nat
  /-- The number of `pipe` calls made so far. -/
  pipe_calls : Nat
  /-- The signals sent with `kill`, oldest first. -/
  signals : List (Int × Signal)
  /-- The directories handed to `chdir`, oldest first. -/
  chdirs : List (List Char)
  /-- Whether `exit` has been called. -/
  exited : Bool
  deriving DecidableEq, Repr

/-- What the operating system answers to the shell. -/
structure Env where
  /-- The value the n-th `fork` call returns in the shell process. -/
  fork : Nat → Int
  /-- Whether the n-th `pipe` call succeeds. -/
  pipe : Nat → Bool
  /-- The value of `getenv("HOME")`, `none` for `NULL`. -/
  home : Option (List Char)
  /-- Whether `chdir` to the given path succeeds. -/
  chdir : List Char → Bool

/-- The job-table slot `job_list[i]`. -/
def slot (s : Shell) (i : Nat) : job_t :=
  s.job_list.getD i zero_job

/-- The loop `for (i = lo; i < lo + n; i++) if (p i) return i;`: the first
index of the range at which `p` holds. -/
def first_index (p : Nat → Bool) : Nat → Nat → Option Nat
  | 0, _ => none
  | n + 1, i => if p i then some i else first_index p n (i + 1)

/-! ## Job management functions (lines 41-101) -/

/-- The function `add_job` (lines 41-57). -/
def add_job (pid : Int) (command : List Char) (is_background : Int) (s : Shell) : Shell :=
  match first_index (fun i => decide ((slot s i).pid = 0)) MAX_JOBS 0 with
  | some i =>
    let j : job_t :=
      { pid := pid
        id := s.next_job_id
        command := command.take (MAX_LINE - 1)
        status := if is_background ≠ 0 then job_status.RUNNING else job_status.DONE }
    { s with
      job_list := s.job_list.set i j
      next_job_id := s.next_job_id + 1
      stderr := if is_background ≠ 0 then s.stderr ++ [Diag.job_started j.id pid] else s.stderr }
  | none => { s with stderr := s.stderr ++ [Diag.job_list_full] }

/-- The function `remove_job_by_pid` (lines 63-70). -/
def remove_job_by_pid (pid : Int) (s : Shell) : Shell :=
  match first_index (fun i => decide ((slot s i).pid = pid)) MAX_JOBS 0 with
  | some i => { s with job_list := s.job_list.set i zero_job }
  | none => s

/-- The function `find_job_by_id` (lines 77-84); the result is the index of
the slot the returned pointer refers to. -/
def find_job_by_id (job_id : Int) (s : Shell) : Option Nat :=
  first_index (fun i => decide ((slot s i).id = job_id) && decide ((slot s i).pid > 0)) MAX_JOBS 0

/-- The loop of `print_jobs` from slot `i` on, with `n` slots left;
returns the lines printed and the count. -/
def print_jobs_loop (s : Shell) : Nat → Nat → List Diag × Nat
  | 0, _ => ([], 0)
  | n + 1, i =>
    let rest := print_jobs_loop s n (i + 1)
    if (slot s i).pid > 0 then
      let status_str :=
        if (slot s i).status = job_status.RUNNING then "Running".toList else "Stopped".toList
      (Diag.job_line (slot s i).id status_str (slot s i).command :: rest.1, rest.2 + 1)
    else rest

/-- The function `print_jobs` (lines 89-101). -/
def print_jobs (s : Shell) : Shell :=
  let r := print_jobs_loop s MAX_JOBS 0
  if r.2 = 0 then { s with stderr := s.stderr ++ r.1 ++ [Diag.no_background_jobs] }
  else { s with stderr := s.stderr ++ r.1 }

/-! ## Signal handling (lines 108-136) -/

/-- The status word `waitpid` stores, by the macro that recognises it. -/
inductive wstatus where
  | exited (code : Nat)
  | signaled (sig : Nat)
  | stopped (sig : Nat)
  | continued
  deriving DecidableEq, Repr

/-- The macro `WIFEXITED`. -/
def WIFEXITED : wstatus → Bool
  | wstatus.exited _ => true
  | _ => false

/-- The macro `WIFSIGNALED`. -/
def WIFSIGNALED : wstatus → Bool
  | wstatus.signaled _ => true
  | _ => false

/-- The macro `WIFSTOPPED`. -/
def WIFSTOPPED : wstatus → Bool
  | wstatus.stopped _ => true
  | _ => false

/-- The body of the `while` loop of `sigchld_handler` (lines 115-133), for
one child-state change `(pid, status)` that `waitpid` collected. -/
def sigchld_body (pid : Int) (status : wstatus) (s : Shell) : Shell :=
  if WIFEXITED status || WIFSIGNALED status then
    match first_index (fun i => decide ((slot s i).pid = pid)) MAX_JOBS 0 with
    | some i =>
      remove_job_by_pid pid
        { s with stderr := s.stderr ++ [Diag.job_done (slot s i).id pid (slot s i).command] }
    | none => s
  else if WIFSTOPPED status then
    match first_index (fun i => decide ((slot s i).pid = pid)) MAX_JOBS 0 with
    | some i =>
      { s with
        job_list := s.job_list.set i { slot s i with status := job_status.STOPPED }
        stderr := s.stderr ++ [Diag.job_stopped (slot s i).id pid (slot s i).command] }
    | none => s
  else s

/-- The `while` loop of `sigchld_handler` (line 114): `reports` lists what
the successive `waitpid(-1, &status, WNOHANG | WUNTRACED)` calls return;
once the list is used up `waitpid` returns 0 or -1. -/
def sigchld_loop : List (Int × wstatus) → Shell → Shell
  | [], s => s
  | (pid, status) :: rest, s =>
    if pid > 0 then sigchld_loop rest (sigchld_body pid status s) else s

/-- The function `sigchld_handler` (lines 108-136). -/
def sigchld_handler (reports : List (Int × wstatus)) (s : Shell) : Shell :=
  { sigchld_loop reports { s with children_pending := 1 } with children_pending := 0 }

/-! ## Parsing (lines 169-203) -/

/-- The delimiter set `" \t\n"` handed to `strtok_r` and `strtok`. -/
def is_space (c : Char) : Bool :=
  c == ' ' || c == '\t' || c == '\n'

/-- One call of `strtok_r` (or `strtok`) on the text `str` still to be
scanned: leading delimiters are skipped; at the end of the text the result
is `NULL` (`none`); otherwise the token runs up to the next delimiter, which
is overwritten with NUL, and the save pointer is left behind it. The second
component is the text left for the next call. -/
def strtok_r (delim : Char → Bool) (str : List Char) : Option (List Char) × List Char :=
  match str.dropWhile delim with
  | [] => (none, [])
  | c :: cs =>
    (some ((c :: cs).takeWhile fun x => !delim x),
     ((c :: cs).dropWhile fun x => !delim x).drop 1)

/-- The tokens returned by at most `n` successive calls of `strtok_r`,
up to the first `NULL`. -/
def strtok_all (delim : Char → Bool) : Nat → List Char → List (List Char)
  | 0, _ => []
  | n + 1, str =>
    match strtok_r delim str with
    | (none, _) => []
    | (some token, saveptr) => token :: strtok_all delim n saveptr

/-- All tokens `strtok_r` returns on `str` with the delimiters `" \t\n"`;
every call that returns a token consumes at least one character, so
`str.length` calls reach the `NULL` (`strtok_all_enough`). -/
def tokens (str : List Char) : List (List Char) :=
  strtok_all is_space str.length str

/-- A cell of type `char *`: not yet written, `NULL`, or a C string. -/
inductive cptr where
  | uninit
  | null
  | str (s : List Char)
  deriving DecidableEq, Repr

/-- The objects `parse_redirection` writes through its pointer parameters,
with its local variable `i`; `stores` lists the indices of `args` that were
assigned, oldest first. -/
structure Redirection where
  args : List cptr
  i : Nat
  input_file : Option (List Char)
  output_file : Option (List Char)
  append_flag : Int
  stores : List Nat
  deriving DecidableEq, Repr

/-- What a call of `parse_redirection` leaves behind: its return value,
the objects it wrote and the line it printed, if any. -/
structure ParseResult where
  ret : Int
  out : Redirection
  diag : List Diag
  deriving DecidableEq, Repr

/-- The `while (token != NULL)` loop of `parse_redirection` (lines
181-202); the list holds the current token and the tokens the later
`strtok_r` calls return. -/
def parse_loop : List (List Char) → Redirection → ParseResult
  | [], r =>
    { ret := 1
      out := { r with args := r.args.set r.i cptr.null, stores := r.stores ++ [r.i] }
      diag := [] }
  | token :: rest, r =>
    if token = "<".toList then
      match rest with
      | [] => { ret := 0, out := r, diag := [Diag.missing_input_file] }
      | file :: rest' => parse_loop rest' { r with input_file := some file }
    else if token = ">".toList then
      match rest with
      | [] => { ret := 0, out := r, diag := [Diag.missing_output_file] }
      | file :: rest' => parse_loop rest' { r with output_file := some file, append_flag := 0 }
    else if token = ">>".toList then
      match rest with
      | [] => { ret := 0, out := r, diag := [Diag.missing_output_file] }
      | file :: rest' => parse_loop rest' { r with output_file := some file, append_flag := 1 }
    else if r.i < MAX_ARGS - 1 then
      parse_loop rest
        { r with
          args := r.args.set r.i (cptr.str token)
          i := r.i + 1
          stores := r.stores ++ [r.i] }
    else parse_loop rest r

/-- The objects as lines 171-175 initialise them; `args` is the caller's
array. -/
def parse_start (args : List cptr) : Redirection :=
  { args := args, i := 0, input_file := none, output_file := none, append_flag := 0,
    stores := [] }

/-- The function `parse_redirection` (lines 169-203). -/
def parse_redirection (command_str : List Char) (args : List cptr) : ParseResult :=
  parse_loop (tokens command_str) (parse_start args)

/-- The argument vector `execvp` reads from `args`: the strings before the
first cell that is not a string. -/
def argv : List cptr → List (List Char)
  | cptr.str s :: rest => s :: argv rest
  | _ => []

/-- The caller's array of `execute_single_command`: `MAX_ARGS` cells, none
written yet. -/
def fresh_args : List cptr :=
  List.replicate MAX_ARGS cptr.uninit

/-! ## Operating-system calls -/

/-- The call `close(fd)`: a descriptor that is not open stays that way. -/
def sys_close (fd : Nat) (s : Shell) : Shell :=
  { s with open_fds := s.open_fds.filter fun x => x ≠ fd }

/-- The lowest descriptor number not in `fds`; among `0 .. fds.length` one
is always unused (`lowest_free_search`). -/
def lowest_free (fds : List Nat) : Nat :=
  match first_index (fun n => decide (n ∉ fds)) (fds.length + 1) 0 with
  | some n => n
  | none => fds.length + 1

/-- The call `pipe(pipefd)`: on success the two lowest unused descriptors
become the read end and the write end. -/
def sys_pipe (env : Env) (s : Shell) : Option (Nat × Nat) × Shell :=
  if env.pipe s.pipe_calls then
    let r := lowest_free s.open_fds
    let w := lowest_free (r :: s.open_fds)
    (some (r, w),
     { s with
       open_fds := s.open_fds ++ [r, w]
       pipes := s.pipes ++ [(r, w)]
       pipe_calls := s.pipe_calls + 1 })
  else (none, { s with pipe_calls := s.pipe_calls + 1 })

/-- Marks the most recently created child with process id `pid` as waited
on. -/
def mark_waited (pid : Int) : List Child → List Child
  | [] => []
  | c :: cs =>
    if cs.any (fun d => decide (d.pid = pid)) then c :: mark_waited pid cs
    else if c.pid = pid then { c with waited := true } :: cs
    else c :: cs

/-- The blocking call `waitpid(pid, &status, 0)`; `failed` tells whether it
returned a negative value with `errno` other than `EINTR`, in which case
`perror(what)` runs. -/
def sys_waitpid (pid : Int) (failed : Bool) (what : List Char) (s : Shell) : Shell :=
  { s with
    children := mark_waited pid s.children
    stderr := if failed then s.stderr ++ [Diag.perror what] else s.stderr }

/-! ## Execution (lines 213-433) -/

/-- The function `execute_single_command` (lines 213-298), as it runs in
the shell process. `env.fork` is what `fork` returns there; the child's
side (lines 233-275) runs in the new process and is recorded as the
`Child` entry: its argument vector and the streams it installs. -/
def execute_single_command (env : Env) (waitpid_failed : Int → Bool) (command_str : List Char)
    (fd_in fd_out : Nat) (command_full_str : List Char) (is_background : Int)
    (s : Shell) : Shell :=
  let r := parse_redirection command_str (fresh_args)
  let s := { s with stderr := s.stderr ++ r.diag }
  if r.ret = 0 then s
  else if r.out.args.getD 0 cptr.uninit = cptr.null then s
  else
    let pid := env.fork s.fork_calls
    let s := { s with fork_calls := s.fork_calls + 1 }
    if pid < 0 then { s with stderr := s.stderr ++ [Diag.perror "fork".toList] }
    else if pid = 0 then s
    else
      let child : Child :=
        { pid := pid
          argv := argv r.out.args
          stdin :=
            match r.out.input_file with
            | some f => Stream.file f false
            | none => if fd_in ≠ STDIN_FILENO then Stream.fd fd_in else Stream.inherited
          stdout :=
            match r.out.output_file with
            | some f => Stream.file f (decide (r.out.append_flag ≠ 0))
            | none => if fd_out ≠ STDOUT_FILENO then Stream.fd fd_out else Stream.inherited
          waited := false }
      let s := { s with children := s.children ++ [child] }
      let s := add_job pid command_full_str is_background s
      let s := if fd_in ≠ STDIN_FILENO then sys_close fd_in s else s
      let s := if fd_out ≠ STDOUT_FILENO then sys_close fd_out s else s
      if is_background = 0 then
        remove_job_by_pid pid (sys_waitpid pid (waitpid_failed pid) "waitpid".toList s)
      else s

/-- Step 1 of `execute_pipeline_or_builtin` (lines 308-316): the
background flag and the line without the marker and the blanks before it. -/
def strip_background (line : List Char) : Int × List Char :=
  if line.getLast? = some '&' then
    (1, line.dropLast.rdropWhile fun c => c == ' ' || c == '\t')
  else (0, line)

/-- The trimming of one pipeline part (lines 324-329): `start` skips
leading blanks and tabs, `end` moves left over trailing blanks, tabs and
newlines but never past `start`. -/
def trim_command (pipe_token : List Char) : List Char :=
  match pipe_token.dropWhile fun c => c == ' ' || c == '\t' with
  | [] => []
  | c :: cs => c :: cs.rdropWhile is_space

/-- Step 2 (lines 319-331): the array `commands`, at most `MAX_COMMANDS`
trimmed parts of the line between `|` characters. -/
def split_commands (line : List Char) : List (List Char) :=
  ((strtok_all (fun c => c == '|') line.length line).take MAX_COMMANDS).map trim_command

/-- The value of the C expression `is_background && (i == num_commands - 1)`. -/
def background_flag (is_background : Int) (i num_commands : Nat) : Int :=
  if is_background ≠ 0 ∧ i = num_commands - 1 then 1 else 0

/-- Step 4 (lines 405-432): the loop over the commands from index `i` on,
with `fd_in` the current input descriptor; the list holds `commands[i]`,
`commands[i+1]`, ... The first component is the value returned. -/
def pipeline_loop (env : Env) (waitpid_failed : Int → Bool) (command_full_str : List Char)
    (is_background : Int) (num_commands : Nat) :
    List (List Char) → Nat → Nat → Shell → Int × Shell
  | [], _, _, s => (1, s)
  | command :: rest, i, fd_in, s =>
    if i < num_commands - 1 then
      match sys_pipe env s with
      | (none, s) => (0, { s with stderr := s.stderr ++ [Diag.perror "pipe".toList] })
      | (some (pipefd0, pipefd1), s) =>
        let s := execute_single_command env waitpid_failed command fd_in pipefd1
          command_full_str (background_flag is_background i num_commands) s
        let s := sys_close pipefd1 s
        pipeline_loop env waitpid_failed command_full_str is_background num_commands
          rest (i + 1) pipefd0 s
    else
      let s := execute_single_command env waitpid_failed command fd_in STDOUT_FILENO
        command_full_str (background_flag is_background i num_commands) s
      pipeline_loop env waitpid_failed command_full_str is_background num_commands
        rest (i + 1) fd_in s

/-- The value of a run of decimal digits, most significant first. -/
def digits_value (ds : List Char) : Int :=
  ds.foldl (fun acc c => acc * 10 + ((c.toNat : Int) - 48)) 0

/-- The library predicate `isspace` in the C locale: blank, `\t`, `\n`,
`\v`, `\f` and `\r`. -/
def isspace (c : Char) : Bool :=
  c == ' ' || c == Char.ofNat 9 || c == Char.ofNat 10 || c == Char.ofNat 11 ||
  c == Char.ofNat 12 || c == Char.ofNat 13

/-- The library function `atoi`: leading `isspace` characters, an optional
sign, then decimal digits up to the first other character. The value is
exact; for a value that does not fit an `int` the C standard leaves the
behaviour of `atoi` undefined. -/
def atoi (str : List Char) : Int :=
  match str.dropWhile isspace with
  | '-' :: ds => - digits_value (ds.takeWhile Char.isDigit)
  | '+' :: ds => digits_value (ds.takeWhile Char.isDigit)
  | ds => digits_value (ds.takeWhile Char.isDigit)

/-- The loop of the `exit` builtin (lines 344-348): `SIGTERM` to every
slot with a positive process id, from slot `i` on with `n` slots left. -/
def kill_jobs (s : Shell) : Nat → Nat → List (Int × Signal)
  | 0, _ => []
  | n + 1, i =>
    if (slot s i).pid > 0 then ((slot s i).pid, Signal.SIGTERM) :: kill_jobs s n (i + 1)
    else kill_jobs s n (i + 1)

/-- What the operating system answers besides `Env`: whether a `kill`
fails with an error other than `ESRCH`, and whether a blocking `waitpid`
fails with an error other than `EINTR`. -/
structure Faults where
  kill_failed : Int → Bool
  waitpid_failed : Int → Bool

/-- The function `execute_pipeline_or_builtin` (lines 306-433); the line
is not empty (`shell_loop` skips empty lines). The first component is the
value returned; after the `exit` builtin, which does not return, the state
has `exited` set. -/
def execute_pipeline_or_builtin (env : Env) (faults : Faults) (line : List Char)
    (command_full_str : List Char) (s : Shell) : Int × Shell :=
  let is_background := (strip_background line).1
  let commands := split_commands (strip_background line).2
  let num_commands := commands.length
  match commands with
  | [] => (0, s)
  | command0 :: _ =>
    let arg0 := strtok_r is_space command0
    if arg0.1 = some "exit".toList then
      (0, { s with
            signals := s.signals ++ kill_jobs s MAX_JOBS 0
            stderr := s.stderr ++ [Diag.exiting]
            exited := true })
    else if arg0.1 = some "cd".toList then
      let path : Option (List Char) :=
        match (strtok_r is_space arg0.2).1 with
        | some p => some p
        | none => env.home
      match path with
      | some p =>
        if env.chdir p then (1, { s with chdirs := s.chdirs ++ [p] })
        else (1, { s with stderr := s.stderr ++ [Diag.perror "cd".toList] })
      | none => (1, { s with stderr := s.stderr ++ [Diag.perror "cd".toList] })
    else if arg0.1 = some "jobs".toList then (1, print_jobs s)
    else if arg0.1 = some "fg".toList then
      match (strtok_r is_space arg0.2).1 with
      | some job_id_str =>
        match find_job_by_id (atoi job_id_str) s with
        | some j =>
          let pid := (slot s j).pid
          let s := { s with
            stderr := s.stderr ++
              [Diag.bringing_to_foreground (slot s j).id pid (slot s j).command] }
          let s := { s with
            signals := s.signals ++ [(pid, Signal.SIGCONT)]
            stderr :=
              if faults.kill_failed pid then s.stderr ++ [Diag.perror "kill SIGCONT".toList]
              else s.stderr }
          let s := sys_waitpid pid (faults.waitpid_failed pid) "waitpid fg".toList s
          (1, remove_job_by_pid pid s)
        | none => (1, { s with stderr := s.stderr ++ [Diag.fg_no_such_job job_id_str] })
      | none => (1, { s with stderr := s.stderr ++ [Diag.fg_usage] })
    else
      pipeline_loop env faults.waitpid_failed command_full_str is_background num_commands
        commands 0 STDIN_FILENO s

/-! ## The specification's reading of a stage

The definitions of this section follow the wording of the specification;
the theorems compare them with the functions above. -/

/-- A redirection operator: one of the tokens `<`, `>`, `>>`. -/
def is_operator (token : List Char) : Bool :=
  decide (token = "<".toList) || decide (token = ">".toList) || decide (token = ">>".toList)

/-- Scanning the tokens left to right, each operator taking the token after
it as its file name: is an operator reached that has no token after it? -/
def operator_without_file : List (List Char) → Bool
  | [] => false
  | [token] => is_operator token
  | token :: file :: rest =>
    if is_operator token then operator_without_file rest
    else operator_without_file (file :: rest)

/-- The tokens that are neither an operator nor the file name taken by
one, in their order. -/
def plain_tokens : List (List Char) → List (List Char)
  | [] => []
  | [token] => if is_operator token then [] else [token]
  | token :: file :: rest =>
    if is_operator token then plain_tokens rest
    else token :: plain_tokens (file :: rest)

/-- The redirections of a stage in their order: each operator with the
file name after it. -/
def redirections : List (List Char) → List (List Char × List Char)
  | [] => []
  | [_] => []
  | token :: file :: rest =>
    if is_operator token then (token, file) :: redirections rest
    else redirections (file :: rest)

/-- The file name after the last `<` operator. -/
def last_input (rs : List (List Char × List Char)) : Option (List Char) :=
  ((rs.filter fun p => decide (p.1 = "<".toList)).getLast?).map Prod.snd

/-- The last `>` or `>>` operator with the file name after it. -/
def last_output (rs : List (List Char × List Char)) : Option (List Char × List Char) :=
  (rs.filter fun p => decide (p.1 = ">".toList) || decide (p.1 = ">>".toList)).getLast?

/-- A token made of a redirection operator immediately followed by a
non-empty path, such as `<in.txt`, `>out` or `>>log`. -/
def glued (token : List Char) : Prop :=
  ∃ op path, is_operator op = true ∧ path ≠ [] ∧ token = op ++ path

/-- The length of the run of operator tokens at the end of the stage. -/
def trailing_operators (toks : List (List Char)) : Nat :=
  (toks.reverse.takeWhile is_operator).length

/-! ## Definitions used in the statements and proofs -/

/-- The state of the shell when `main` has cleared the job table and
nothing has run yet: standard descriptors open, no children. -/
def init_shell : Shell :=
  { job_list := List.replicate MAX_JOBS zero_job
    next_job_id := 1
    children_pending := 0
    stderr := []
    open_fds := [0, 1, 2]
    pipes := []
    children := []
    fork_calls := 0
    pipe_calls := 0
    signals := []
    chdirs := []
    exited := false }

/-- A job table whose ten slots are all taken (process ids 101 to 110). -/
def full_shell : Shell :=
  { init_shell with
    job_list := (List.range MAX_JOBS).map fun i =>
      { pid := 101 + (i : Int), id := 1 + (i : Int), command := ['x'], status := job_status.RUNNING }
    next_job_id := 11 }

/-- At most one slot per live process id. -/
def unique_pids (s : Shell) : Prop :=
  ∀ i, i < MAX_JOBS → ∀ j, j < MAX_JOBS →
    (slot s i).pid ≠ 0 → (slot s i).pid = (slot s j).pid → i = j

/-- A table with three live jobs (process ids 500, 501, 502 in slots 0, 1, 2). -/
def three_jobs : Shell :=
  { init_shell with
    job_list :=
      [ { pid := 500, id := 1, command := "sleep 9 &".toList, status := job_status.RUNNING },
        { pid := 501, id := 2, command := "cat &".toList, status := job_status.STOPPED },
        { pid := 502, id := 3, command := "wc &".toList, status := job_status.RUNNING } ]
      ++ List.replicate 7 zero_job
    next_job_id := 4 }

/-- One update of the job table: a call of `add_job`, of
`remove_job_by_pid`, or a run of `sigchld_handler`. -/
inductive JobStep : Shell → Shell → Prop where
  | add (s : Shell) (pid : Int) (command : List Char) (is_background : Int) :
      JobStep s (add_job pid command is_background s)
  | remove (s : Shell) (pid : Int) : JobStep s (remove_job_by_pid pid s)
  | sigchld (s : Shell) (reports : List (Int × wstatus)) :
      JobStep s (sigchld_handler reports s)

/-- The states reached from an empty table with `next_job_id = 1`. -/
inductive Reachable : Shell → Prop where
  | init (s : Shell) (htable : s.job_list = List.replicate MAX_JOBS zero_job)
      (hnext : s.next_job_id = 1) : Reachable s
  | step {s s' : Shell} (h : Reachable s) (hstep : JobStep s s') : Reachable s'

/-- The invariant of the job table. -/
def job_inv (s : Shell) : Prop :=
  s.job_list.length = MAX_JOBS ∧
  1 ≤ s.next_job_id ∧
  (∀ i, i < MAX_JOBS → (slot s i).pid ≠ 0 →
    0 < (slot s i).id ∧ (slot s i).id < s.next_job_id) ∧
  (∀ i, i < MAX_JOBS → ∀ j, j < MAX_JOBS →
    (slot s i).pid ≠ 0 → (slot s j).pid ≠ 0 → (slot s i).id = (slot s j).id → i = j)

/-- Slot `i` of `s'` carries the same job (pid, id, command) as in `s`. -/
def same_job (s s' : Shell) (i : Nat) : Prop :=
  (slot s' i).pid = (slot s i).pid ∧ (slot s' i).id = (slot s i).id ∧
  (slot s' i).command = (slot s i).command

/-- An update that only clears slots or changes a status: table length and
counter are kept, and every slot is either free afterwards or carries the
same job as before. -/
def shrinks (s s' : Shell) : Prop :=
  s'.job_list.length = s.job_list.length ∧ s'.next_job_id = s.next_job_id ∧
  ∀ i, (slot s' i).pid = 0 ∨ same_job s s' i

/-- A short run of the job table: two background jobs are registered, the
first one exits and is reaped, a third job is registered. -/
def sample_run : Shell :=
  add_job 502 "wc &".toList 1
    (sigchld_handler [(500, wstatus.exited 0)]
      (add_job 501 "cat &".toList 1 (add_job 500 "sleep 9 &".toList 1 init_shell)))

/-- The effect of an argument token on the objects (lines 196-198). -/
def push_arg (r : Redirection) (token : List Char) : Redirection :=
  if r.i < MAX_ARGS - 1 then
    { r with
      args := r.args.set r.i (cptr.str token)
      i := r.i + 1
      stores := r.stores ++ [r.i] }
  else r

/-- The effect of an operator with its file name (lines 182-195). -/
def redirect (r : Redirection) (op file : List Char) : Redirection :=
  if op = "<".toList then { r with input_file := some file }
  else if op = ">".toList then { r with output_file := some file, append_flag := 0 }
  else { r with output_file := some file, append_flag := 1 }

/-- A stage of seventy argument tokens `a`. -/
def seventy_args : List Char :=
  (List.replicate 70 "a ".toList).flatten

/-- The append flag the last output redirection leaves, `otherwise` when
there is none. -/
def append_of (last : Option (List Char × List Char)) (otherwise : Int) : Int :=
  match last with
  | some p => if p.1 = ">>".toList then 1 else 0
  | none => otherwise

/-- The descriptors left open by `if (fd != std) close(fd)`. -/
def close_unless (std fd : Nat) (fds : List Nat) : List Nat :=
  if fd ≠ std then fds.filter (fun x => x ≠ fd) else fds

/-- The parent's side of `execute_single_command` (lines 276-297), for the
process id `pid` returned by `fork` and the child entry `child`. -/
def parent_branch (pid : Int) (child : Child) (wf : Int → Bool) (fd_in fd_out : Nat)
    (full : List Char) (is_background : Int) (s : Shell) : Shell :=
  let s := { s with children := s.children ++ [child] }
  let s := add_job pid full is_background s
  let s := if fd_in ≠ STDIN_FILENO then sys_close fd_in s else s
  let s := if fd_out ≠ STDOUT_FILENO then sys_close fd_out s else s
  if is_background = 0 then
    remove_job_by_pid pid (sys_waitpid pid (wf pid) "waitpid".toList s)
  else s

/-- The child entry `execute_single_command` records (lines 233-275). -/
def child_of (pid : Int) (r : ParseResult) (fd_in fd_out : Nat) : Child :=
  { pid := pid
    argv := argv r.out.args
    stdin :=
      match r.out.input_file with
      | some f => Stream.file f false
      | none => if fd_in ≠ STDIN_FILENO then Stream.fd fd_in else Stream.inherited
    stdout :=
      match r.out.output_file with
      | some f => Stream.file f (decide (r.out.append_flag ≠ 0))
      | none => if fd_out ≠ STDOUT_FILENO then Stream.fd fd_out else Stream.inherited
    waited := false }

/-- The blocking waits the loop issues on the children of the stages
`i, ..., i + n - 1`: on every stage whose flag `background_flag` is 0. -/
def expected_waits (bg : Int) (num i n : Nat) : List Bool :=
  (List.range' i n).map fun idx => decide (background_flag bg idx num = 0)

/-- The operating system of the examples: the n-th `fork` returns process
id `100 + n`, every `pipe` succeeds. -/
def env_ok : Env :=
  { fork := fun n => 100 + (n : Int), pipe := fun _ => true, home := none,
    chdir := fun _ => true }

/-- No `kill` and no blocking `waitpid` fails. -/
def no_faults : Faults :=
  { kill_failed := fun _ => false, waitpid_failed := fun _ => false }

/-- The shell runs the line `line` from its initial state. -/
def run_line (line : List Char) : Int × Shell :=
  execute_pipeline_or_builtin env_ok no_faults line line init_shell

/-- The first word of the stage is one of the builtins `exit`, `cd`, `jobs`,
`fg` (lines 341-395). -/
def is_builtin (command0 : List Char) : Bool :=
  decide ((strtok_r is_space command0).1 = some "exit".toList) ||
  decide ((strtok_r is_space command0).1 = some "cd".toList) ||
  decide ((strtok_r is_space command0).1 = some "jobs".toList) ||
  decide ((strtok_r is_space command0).1 = some "fg".toList)

/-- The stage parses and its argument vector is not empty, so that
`execute_single_command` goes on to `fork` (lines 218-224). -/
def runnable (command_str : List Char) : Prop :=
  (parse_redirection command_str (fresh_args)).ret = 1 ∧
  argv (parse_redirection command_str (fresh_args)).out.args ≠ []

/-! ## Theorems -/

/-! ### The scanning loop -/

theorem first_index_some {p : Nat → Bool} :
    ∀ {n lo k : Nat}, first_index p n lo = some k →
      lo ≤ k ∧ k < lo + n ∧ p k = true ∧ ∀ j, lo ≤ j → j < k → p j = false := by
  intro n
  induction n with
  | zero => intro lo k h; simp [first_index] at h
  | succ n ih =>
    intro lo k h
    unfold first_index at h
    by_cases hp : p lo = true
    · rw [if_pos hp] at h
      injection h with h
      subst h
      exact ⟨le_refl _, by omega, hp, fun j h1 h2 => by omega⟩
    · rw [if_neg hp] at h
      obtain ⟨h1, h2, h3, h4⟩ := ih h
      refine ⟨by omega, by omega, h3, ?_⟩
      intro j hj1 hj2
      by_cases hj : j = lo
      · subst hj; simpa using hp
      · exact h4 j (by omega) hj2

theorem first_index_none {p : Nat → Bool} :
    ∀ {n lo : Nat}, first_index p n lo = none →
      ∀ j, lo ≤ j → j < lo + n → p j = false := by
  intro n
  induction n with
  | zero => intro lo _ j h1 h2; omega
  | succ n ih =>
    intro lo h j h1 h2
    unfold first_index at h
    by_cases hp : p lo = true
    · rw [if_pos hp] at h; cases h
    · rw [if_neg hp] at h
      by_cases hj : j = lo
      · subst hj; simpa using hp
      · exact ih h j (by omega) (by omega)

theorem first_index_exists {p : Nat → Bool} {n lo j : Nat}
    (h1 : lo ≤ j) (h2 : j < lo + n) (h3 : p j = true) :
    ∃ k, first_index p n lo = some k := by
  cases h : first_index p n lo with
  | some k => exact ⟨k, rfl⟩
  | none =>
    have := first_index_none h j h1 h2
    rw [h3] at this
    cases this

theorem first_index_of_least {p : Nat → Bool} {n k : Nat}
    (hk : k < n) (hp : p k = true) (hmin : ∀ j, j < k → p j = false) :
    first_index p n 0 = some k := by
  obtain ⟨k', hk'⟩ := first_index_exists (n := n) (Nat.zero_le k) (by omega) hp
  obtain ⟨_, _, h3, h4⟩ := first_index_some hk'
  have : k' = k := by
    rcases Nat.lt_trichotomy k' k with h | h | h
    · have := hmin k' h; rw [h3] at this; cases this
    · exact h
    · have := h4 k (Nat.zero_le k) h; rw [hp] at this; cases this
  rw [hk', this]

/-! ### Reading and writing slots -/

theorem slot_set_self (s : Shell) (k : Nat) (j : job_t) (h : k < s.job_list.length) :
    (s.job_list.set k j).getD k zero_job = j := by
  simp [List.getD_eq_getElem?_getD, List.getElem?_set, h]

theorem slot_set_other (s : Shell) (k i : Nat) (j : job_t) (h : i ≠ k) :
    (s.job_list.set k j).getD i zero_job = slot s i := by
  simp [slot, List.getD_eq_getElem?_getD, List.getElem?_set, h.symm]

/-! ### The job table: `add_job` -/

theorem add_job_some {s : Shell} {k : Nat} (pid : Int) (command : List Char)
    (is_background : Int)
    (h : first_index (fun i => decide ((slot s i).pid = 0)) MAX_JOBS 0 = some k) :
    add_job pid command is_background s =
      { s with
        job_list := s.job_list.set k
          { pid := pid
            id := s.next_job_id
            command := command.take (MAX_LINE - 1)
            status := if is_background ≠ 0 then job_status.RUNNING else job_status.DONE }
        next_job_id := s.next_job_id + 1
        stderr :=
          if is_background ≠ 0 then s.stderr ++ [Diag.job_started s.next_job_id pid]
          else s.stderr } := by
  simp only [add_job, h]

theorem add_job_none {s : Shell} (pid : Int) (command : List Char) (is_background : Int)
    (h : first_index (fun i => decide ((slot s i).pid = 0)) MAX_JOBS 0 = none) :
    add_job pid command is_background s =
      { s with stderr := s.stderr ++ [Diag.job_list_full] } := by
  simp only [add_job, h]

/-- C7. `add_job`: when some slot is free (process id 0) the new job goes
into the lowest-index free slot `k` with `job_id` equal to the current
`next_job_id`, the command cut to `MAX_LINE - 1` characters and status
`RUNNING` when the flag is non-zero (`DONE` otherwise); the counter grows
by one and every other slot keeps its contents. When all `MAX_JOBS` slots
hold a live process id the only effect is the line `Error: Job list full.`:
table and counter are unchanged. -/
theorem add_job_spec (s : Shell) (pid : Int) (command : List Char) (is_background : Int)
    (hlen : s.job_list.length = MAX_JOBS) :
    ((∃ i, i < MAX_JOBS ∧ (slot s i).pid = 0) →
      ∃ k, k < MAX_JOBS ∧ (slot s k).pid = 0 ∧ (∀ j, j < k → (slot s j).pid ≠ 0) ∧
        (slot (add_job pid command is_background s) k).pid = pid ∧
        (slot (add_job pid command is_background s) k).id = s.next_job_id ∧
        (slot (add_job pid command is_background s) k).command = command.take (MAX_LINE - 1) ∧
        (is_background ≠ 0 →
          (slot (add_job pid command is_background s) k).status = job_status.RUNNING) ∧
        (is_background = 0 →
          (slot (add_job pid command is_background s) k).status = job_status.DONE) ∧
        (∀ j, j ≠ k → slot (add_job pid command is_background s) j = slot s j) ∧
        (add_job pid command is_background s).job_list.length = MAX_JOBS ∧
        (add_job pid command is_background s).next_job_id = s.next_job_id + 1) ∧
    ((∀ i, i < MAX_JOBS → (slot s i).pid ≠ 0) →
      add_job pid command is_background s =
        { s with stderr := s.stderr ++ [Diag.job_list_full] } ∧
      (add_job pid command is_background s).job_list = s.job_list ∧
      (add_job pid command is_background s).next_job_id = s.next_job_id) := by
  constructor
  · rintro ⟨i, hi, hfree⟩
    obtain ⟨k, hk⟩ := first_index_exists (p := fun i => decide ((slot s i).pid = 0))
      (n := MAX_JOBS) (Nat.zero_le i) (by omega) (by simpa using hfree)
    obtain ⟨_, h2, h3, h4⟩ := first_index_some hk
    have hk2 : k < s.job_list.length := by omega
    refine ⟨k, by omega, by simpa using h3, ?_, ?_⟩
    · intro j hj
      simpa using h4 j (Nat.zero_le j) hj
    · rw [add_job_some pid command is_background hk]
      simp only [slot]
      rw [slot_set_self s k _ hk2]
      refine ⟨?_, ?_, ?_, ?_, ?_, ?_, ?_, ?_⟩
      · rfl
      · rfl
      · rfl
      · intro hb; simp [hb]
      · intro hb; simp [hb]
      · intro j hj; exact slot_set_other s k j _ hj
      · simp [hlen]
      · trivial
  · intro hfull
    have hnone : first_index (fun i => decide ((slot s i).pid = 0)) MAX_JOBS 0 = none := by
      cases h : first_index (fun i => decide ((slot s i).pid = 0)) MAX_JOBS 0 with
      | none => rfl
      | some k =>
        obtain ⟨_, h2, h3, _⟩ := first_index_some h
        exact absurd (by simpa using h3) (hfull k (by omega))
    rw [add_job_none pid command is_background hnone]
    exact ⟨rfl, rfl, rfl⟩

/-- C7 at concrete inputs: a background job added to the empty table lands
in slot 0 with id 1; a job added to a full table only reports the error. -/
theorem add_job_spec_witness :
    (∃ k, k < MAX_JOBS ∧ (slot init_shell k).pid = 0 ∧
        (∀ j, j < k → (slot init_shell j).pid ≠ 0) ∧
        (slot (add_job 4242 "sleep 5 &".toList 1 init_shell) k).pid = 4242 ∧
        (slot (add_job 4242 "sleep 5 &".toList 1 init_shell) k).id = init_shell.next_job_id ∧
        (slot (add_job 4242 "sleep 5 &".toList 1 init_shell) k).command =
          "sleep 5 &".toList.take (MAX_LINE - 1) ∧
        ((1 : Int) ≠ 0 →
          (slot (add_job 4242 "sleep 5 &".toList 1 init_shell) k).status = job_status.RUNNING) ∧
        ((1 : Int) = 0 →
          (slot (add_job 4242 "sleep 5 &".toList 1 init_shell) k).status = job_status.DONE) ∧
        (∀ j, j ≠ k → slot (add_job 4242 "sleep 5 &".toList 1 init_shell) j = slot init_shell j) ∧
        (add_job 4242 "sleep 5 &".toList 1 init_shell).job_list.length = MAX_JOBS ∧
        (add_job 4242 "sleep 5 &".toList 1 init_shell).next_job_id = init_shell.next_job_id + 1) ∧
    (add_job 4242 "sleep 5 &".toList 1 full_shell =
        { full_shell with stderr := full_shell.stderr ++ [Diag.job_list_full] } ∧
      (add_job 4242 "sleep 5 &".toList 1 full_shell).job_list = full_shell.job_list ∧
      (add_job 4242 "sleep 5 &".toList 1 full_shell).next_job_id = full_shell.next_job_id) :=
  ⟨(add_job_spec init_shell 4242 "sleep 5 &".toList 1 (by decide)).1 ⟨0, by decide, by decide⟩,
   (add_job_spec full_shell 4242 "sleep 5 &".toList 1 (by decide)).2 (by decide)⟩

/-! ### The job table: `remove_job_by_pid` -/

theorem remove_job_by_pid_some {s : Shell} {pid : Int} {k : Nat}
    (h : first_index (fun i => decide ((slot s i).pid = pid)) MAX_JOBS 0 = some k) :
    remove_job_by_pid pid s = { s with job_list := s.job_list.set k zero_job } := by
  simp only [remove_job_by_pid, h]

theorem remove_job_by_pid_none {s : Shell} {pid : Int}
    (h : first_index (fun i => decide ((slot s i).pid = pid)) MAX_JOBS 0 = none) :
    remove_job_by_pid pid s = s := by
  simp only [remove_job_by_pid, h]

theorem remove_job_by_pid_absent {s : Shell} {pid : Int}
    (h : ∀ i, i < MAX_JOBS → (slot s i).pid ≠ pid) : remove_job_by_pid pid s = s := by
  apply remove_job_by_pid_none
  cases hf : first_index (fun i => decide ((slot s i).pid = pid)) MAX_JOBS 0 with
  | none => rfl
  | some k =>
    obtain ⟨_, h2, h3, _⟩ := first_index_some hf
    exact absurd (by simpa using h3) (h k (by omega))

theorem remove_job_by_pid_present {s : Shell} {pid : Int}
    (hlen : s.job_list.length = MAX_JOBS)
    (h : ∃ i, i < MAX_JOBS ∧ (slot s i).pid = pid) :
    ∃ k, k < MAX_JOBS ∧ (slot s k).pid = pid ∧ (∀ j, j < k → (slot s j).pid ≠ pid) ∧
      remove_job_by_pid pid s = { s with job_list := s.job_list.set k zero_job } ∧
      slot (remove_job_by_pid pid s) k = zero_job ∧
      (∀ j, j ≠ k → slot (remove_job_by_pid pid s) j = slot s j) := by
  obtain ⟨i, hi, hi2⟩ := h
  obtain ⟨k, hk⟩ := first_index_exists (p := fun i => decide ((slot s i).pid = pid))
    (n := MAX_JOBS) (Nat.zero_le i) (by omega) (by simpa using hi2)
  obtain ⟨_, h2, h3, h4⟩ := first_index_some hk
  have hk2 : k < s.job_list.length := by omega
  refine ⟨k, by omega, by simpa using h3, ?_, remove_job_by_pid_some hk, ?_, ?_⟩
  · intro j hj
    simpa using h4 j (Nat.zero_le j) hj
  · rw [remove_job_by_pid_some hk]
    exact slot_set_self s k _ hk2
  · intro j hj
    rw [remove_job_by_pid_some hk]
    exact slot_set_other s k j _ hj

/-! ### The reaper: `sigchld_handler` -/

theorem sigchld_body_done {s : Shell} {pid : Int} {status : wstatus} {k : Nat}
    (hst : (WIFEXITED status || WIFSIGNALED status) = true)
    (h : first_index (fun i => decide ((slot s i).pid = pid)) MAX_JOBS 0 = some k) :
    sigchld_body pid status s =
      { s with
        job_list := s.job_list.set k zero_job
        stderr := s.stderr ++ [Diag.job_done (slot s k).id pid (slot s k).command] } := by
  have h' : first_index (fun i => decide ((slot
      { s with stderr := s.stderr ++ [Diag.job_done (slot s k).id pid (slot s k).command] }
      i).pid = pid)) MAX_JOBS 0 = some k := h
  simp only [sigchld_body, hst, if_true, h]
  rw [remove_job_by_pid_some h']

theorem sigchld_body_stopped {s : Shell} {pid : Int} {status : wstatus} {k : Nat}
    (hst : WIFSTOPPED status = true)
    (h : first_index (fun i => decide ((slot s i).pid = pid)) MAX_JOBS 0 = some k) :
    sigchld_body pid status s =
      { s with
        job_list := s.job_list.set k { slot s k with status := job_status.STOPPED }
        stderr := s.stderr ++ [Diag.job_stopped (slot s k).id pid (slot s k).command] } := by
  have hne : (WIFEXITED status || WIFSIGNALED status) = false := by
    cases status <;> simp_all [WIFEXITED, WIFSIGNALED, WIFSTOPPED]
  simp [sigchld_body, hst, hne, h]

theorem sigchld_body_untracked {s : Shell} {pid : Int} (status : wstatus)
    (h : first_index (fun i => decide ((slot s i).pid = pid)) MAX_JOBS 0 = none) :
    sigchld_body pid status s = s := by
  unfold sigchld_body
  split
  · simp only [h]
  · split
    · simp only [h]
    · rfl

theorem first_index_pid_none {s : Shell} {pid : Int}
    (h : ∀ i, i < MAX_JOBS → (slot s i).pid ≠ pid) :
    first_index (fun i => decide ((slot s i).pid = pid)) MAX_JOBS 0 = none := by
  cases hf : first_index (fun i => decide ((slot s i).pid = pid)) MAX_JOBS 0 with
  | none => rfl
  | some k =>
    obtain ⟨_, h2, h3, _⟩ := first_index_some hf
    exact absurd (by simpa using h3) (h k (by omega))

theorem gone_after_clear {s : Shell} {pid : Int} {k : Nat} (err : List Diag)
    (hpid : pid ≠ 0) (hlen : s.job_list.length = MAX_JOBS)
    (hk : first_index (fun i => decide ((slot s i).pid = pid)) MAX_JOBS 0 = some k)
    (huniq : unique_pids s) :
    ∀ i, i < MAX_JOBS →
      (slot { s with job_list := s.job_list.set k zero_job, stderr := err } i).pid ≠ pid := by
  obtain ⟨_, h2, h3, _⟩ := first_index_some hk
  have hkp : (slot s k).pid = pid := by simpa using h3
  intro i hi
  by_cases hik : i = k
  · subst hik
    have : slot { s with job_list := s.job_list.set i zero_job, stderr := err } i = zero_job :=
      slot_set_self s i _ (by omega)
    rw [this]
    exact fun h0 => hpid h0.symm
  · have : slot { s with job_list := s.job_list.set k zero_job, stderr := err } i = slot s i :=
      slot_set_other s k i _ hik
    rw [this]
    intro hip
    exact hik (huniq i hi k (by omega) (by rw [hip]; exact hpid) (by rw [hip, hkp]))

/-- C8. `remove_job_by_pid` for a non-zero process id: when a slot holds
it, the lowest-index such slot `k` becomes `zero_job` (all fields zero, so
free again) and every other slot, as every other part of the state, is
unchanged; when no slot holds it, the state is unchanged. In a table with
at most one slot per process id, no slot holds the process id after the
call, so retiring it a second time changes nothing: neither a second
`remove_job_by_pid`, nor `remove_job_by_pid` after the reaper has retired
the job, nor the reaper after `remove_job_by_pid`. -/
theorem remove_job_by_pid_spec (s : Shell) (pid : Int) (hpid : pid ≠ 0)
    (hlen : s.job_list.length = MAX_JOBS) :
    ((∃ i, i < MAX_JOBS ∧ (slot s i).pid = pid) →
      ∃ k, k < MAX_JOBS ∧ (slot s k).pid = pid ∧ (∀ j, j < k → (slot s j).pid ≠ pid) ∧
        remove_job_by_pid pid s = { s with job_list := s.job_list.set k zero_job } ∧
        slot (remove_job_by_pid pid s) k = zero_job ∧
        (∀ j, j ≠ k → slot (remove_job_by_pid pid s) j = slot s j)) ∧
    ((∀ i, i < MAX_JOBS → (slot s i).pid ≠ pid) → remove_job_by_pid pid s = s) ∧
    (unique_pids s →
      (∀ i, i < MAX_JOBS → (slot (remove_job_by_pid pid s) i).pid ≠ pid) ∧
      remove_job_by_pid pid (remove_job_by_pid pid s) = remove_job_by_pid pid s ∧
      (∀ status, WIFEXITED status = true ∨ WIFSIGNALED status = true →
        remove_job_by_pid pid (sigchld_body pid status s) = sigchld_body pid status s) ∧
      (∀ status,
        sigchld_body pid status (remove_job_by_pid pid s) = remove_job_by_pid pid s)) := by
  refine ⟨remove_job_by_pid_present hlen, remove_job_by_pid_absent, ?_⟩
  intro huniq
  have hgone : ∀ i, i < MAX_JOBS → (slot (remove_job_by_pid pid s) i).pid ≠ pid := by
    cases hk : first_index (fun i => decide ((slot s i).pid = pid)) MAX_JOBS 0 with
    | none =>
      rw [remove_job_by_pid_none hk]
      intro i hi
      have := first_index_none hk i (Nat.zero_le i) (by omega)
      simpa using this
    | some k =>
      rw [remove_job_by_pid_some hk]
      exact gone_after_clear s.stderr hpid hlen hk huniq
  refine ⟨hgone, remove_job_by_pid_absent hgone, ?_, ?_⟩
  · intro status hst
    cases hk : first_index (fun i => decide ((slot s i).pid = pid)) MAX_JOBS 0 with
    | none =>
      rw [sigchld_body_untracked status hk]
      exact remove_job_by_pid_none hk
    | some k =>
      have hst' : (WIFEXITED status || WIFSIGNALED status) = true := by
        rcases hst with h | h <;> simp [h]
      rw [sigchld_body_done hst' hk]
      exact remove_job_by_pid_absent (gone_after_clear _ hpid hlen hk huniq)
  · intro status
    exact sigchld_body_untracked status (first_index_pid_none hgone)

/-- C8 at concrete inputs: retiring process 501 from `three_jobs` clears a
slot and nothing else, retiring the untracked process 777 changes nothing,
and retiring 501 twice, in any order of reaper and `remove_job_by_pid`,
equals retiring it once. -/
theorem remove_job_by_pid_spec_witness :
    (∃ k, k < MAX_JOBS ∧ (slot three_jobs k).pid = 501 ∧
        (∀ j, j < k → (slot three_jobs j).pid ≠ 501) ∧
        remove_job_by_pid 501 three_jobs =
          { three_jobs with job_list := three_jobs.job_list.set k zero_job } ∧
        slot (remove_job_by_pid 501 three_jobs) k = zero_job ∧
        (∀ j, j ≠ k → slot (remove_job_by_pid 501 three_jobs) j = slot three_jobs j)) ∧
    remove_job_by_pid 777 three_jobs = three_jobs ∧
    ((∀ i, i < MAX_JOBS → (slot (remove_job_by_pid 501 three_jobs) i).pid ≠ 501) ∧
      remove_job_by_pid 501 (remove_job_by_pid 501 three_jobs) =
        remove_job_by_pid 501 three_jobs ∧
      (∀ status, WIFEXITED status = true ∨ WIFSIGNALED status = true →
        remove_job_by_pid 501 (sigchld_body 501 status three_jobs) =
          sigchld_body 501 status three_jobs) ∧
      (∀ status,
        sigchld_body 501 status (remove_job_by_pid 501 three_jobs) =
          remove_job_by_pid 501 three_jobs)) :=
  ⟨(remove_job_by_pid_spec three_jobs 501 (by decide) (by decide)).1 ⟨1, by decide, by decide⟩,
   (remove_job_by_pid_spec three_jobs 777 (by decide) (by decide)).2.1 (by decide),
   (remove_job_by_pid_spec three_jobs 501 (by decide) (by decide)).2.2 (by
      unfold unique_pids; decide)⟩

/-! ### Job ids along every run of the job table -/

theorem shrinks_refl (s : Shell) : shrinks s s :=
  ⟨rfl, rfl, fun _ => Or.inr ⟨rfl, rfl, rfl⟩⟩

theorem shrinks_trans {a b c : Shell} (h1 : shrinks a b) (h2 : shrinks b c) : shrinks a c := by
  obtain ⟨l1, n1, k1⟩ := h1
  obtain ⟨l2, n2, k2⟩ := h2
  refine ⟨l2.trans l1, n2.trans n1, fun i => ?_⟩
  rcases k2 i with h | ⟨hp, hi, hc⟩
  · exact Or.inl h
  · rcases k1 i with h' | ⟨hp', hi', hc'⟩
    · exact Or.inl (hp.trans h')
    · exact Or.inr ⟨hp.trans hp', hi.trans hi', hc.trans hc'⟩

theorem shrinks_set_zero (s : Shell) (k : Nat) (err : List Diag) :
    shrinks s { s with job_list := s.job_list.set k zero_job, stderr := err } := by
  refine ⟨by simp, rfl, fun i => ?_⟩
  by_cases hik : i = k
  · subst hik
    by_cases hlt : i < s.job_list.length
    · left
      show ((s.job_list.set i zero_job).getD i zero_job).pid = 0
      rw [slot_set_self s i _ hlt]; rfl
    · left
      show ((s.job_list.set i zero_job).getD i zero_job).pid = 0
      simp [List.getD_eq_getElem?_getD, List.getElem?_set, hlt, zero_job]
  · right
    have : slot { s with job_list := s.job_list.set k zero_job, stderr := err } i = slot s i :=
      slot_set_other s k i _ hik
    simp [same_job, this]

theorem shrinks_set_status (s : Shell) (k : Nat) (st : job_status) (err : List Diag) :
    shrinks s
      { s with job_list := s.job_list.set k { slot s k with status := st }, stderr := err } := by
  refine ⟨by simp, rfl, fun i => ?_⟩
  by_cases hik : i = k
  · subst hik
    by_cases hlt : i < s.job_list.length
    · right
      have : slot { s with
          job_list := s.job_list.set i { slot s i with status := st }, stderr := err } i
          = { slot s i with status := st } := slot_set_self s i _ hlt
      simp [same_job, this]
    · left
      show ((s.job_list.set i { slot s i with status := st }).getD i zero_job).pid = 0
      simp [List.getD_eq_getElem?_getD, List.getElem?_set, hlt, zero_job]
  · right
    have : slot { s with
        job_list := s.job_list.set k { slot s k with status := st }, stderr := err } i
        = slot s i := slot_set_other s k i _ hik
    simp [same_job, this]

theorem shrinks_remove (pid : Int) (s : Shell) : shrinks s (remove_job_by_pid pid s) := by
  cases h : first_index (fun i => decide ((slot s i).pid = pid)) MAX_JOBS 0 with
  | none => rw [remove_job_by_pid_none h]; exact shrinks_refl s
  | some k => rw [remove_job_by_pid_some h]; exact shrinks_set_zero s k s.stderr

theorem shrinks_sigchld_body (pid : Int) (status : wstatus) (s : Shell) :
    shrinks s (sigchld_body pid status s) := by
  cases h : first_index (fun i => decide ((slot s i).pid = pid)) MAX_JOBS 0 with
  | none => rw [sigchld_body_untracked status h]; exact shrinks_refl s
  | some k =>
    by_cases h1 : (WIFEXITED status || WIFSIGNALED status) = true
    · rw [sigchld_body_done h1 h]; exact shrinks_set_zero s k _
    · by_cases h2 : WIFSTOPPED status = true
      · rw [sigchld_body_stopped h2 h]; exact shrinks_set_status s k _ _
      · have : sigchld_body pid status s = s := by
          simp [sigchld_body, h1, h2]
        rw [this]; exact shrinks_refl s

theorem shrinks_sigchld_loop (reports : List (Int × wstatus)) :
    ∀ s, shrinks s (sigchld_loop reports s) := by
  induction reports with
  | nil => intro s; exact shrinks_refl s
  | cons r rest ih =>
    intro s
    obtain ⟨pid, status⟩ := r
    unfold sigchld_loop
    split
    · exact shrinks_trans (shrinks_sigchld_body pid status s) (ih _)
    · exact shrinks_refl s

theorem shrinks_sigchld_handler (reports : List (Int × wstatus)) (s : Shell) :
    shrinks s (sigchld_handler reports s) := by
  have h := shrinks_sigchld_loop reports { s with children_pending := 1 }
  exact ⟨h.1, h.2.1, h.2.2⟩

theorem job_inv_of_shrinks {s s' : Shell} (h : shrinks s s') (hinv : job_inv s) :
    job_inv s' := by
  obtain ⟨hl, hn, hk⟩ := h
  obtain ⟨ilen, ipos, irange, idist⟩ := hinv
  refine ⟨hl.trans ilen, by rw [hn]; exact ipos, ?_, ?_⟩
  · intro i hi hlive
    rcases hk i with h0 | ⟨hp, hid, _⟩
    · exact absurd h0 hlive
    · rw [hid, hn]; exact irange i hi (by rw [← hp]; exact hlive)
  · intro i hi j hj hli hlj hij
    rcases hk i with h0 | ⟨hp, hid, _⟩
    · exact absurd h0 hli
    · rcases hk j with h0' | ⟨hp', hid', _⟩
      · exact absurd h0' hlj
      · exact idist i hi j hj (by rw [← hp]; exact hli) (by rw [← hp']; exact hlj)
          (by rw [← hid, ← hid']; exact hij)

theorem job_inv_add (pid : Int) (command : List Char) (is_background : Int) {s : Shell}
    (hinv : job_inv s) : job_inv (add_job pid command is_background s) := by
  obtain ⟨ilen, ipos, irange, idist⟩ := hinv
  cases h : first_index (fun i => decide ((slot s i).pid = 0)) MAX_JOBS 0 with
  | none =>
    rw [add_job_none pid command is_background h]
    exact ⟨ilen, ipos, irange, idist⟩
  | some k =>
    rw [add_job_some pid command is_background h]
    obtain ⟨_, h2, _, _⟩ := first_index_some h
    have hk2 : k < s.job_list.length := by omega
    have hself : ∀ (nj : job_t) (e : List Diag) (n : Int),
        slot { s with job_list := s.job_list.set k nj, next_job_id := n, stderr := e } k = nj :=
      fun nj _ _ => slot_set_self s k nj hk2
    have hother : ∀ (nj : job_t) (e : List Diag) (n : Int) (i : Nat), i ≠ k →
        slot { s with job_list := s.job_list.set k nj, next_job_id := n, stderr := e } i
          = slot s i :=
      fun nj _ _ i hi => slot_set_other s k i nj hi
    refine ⟨by simpa using ilen, by show 1 ≤ s.next_job_id + 1; omega, ?_, ?_⟩
    · intro i hi hlive
      by_cases hik : i = k
      · subst hik
        rw [hself]
        refine ⟨?_, by show s.next_job_id < s.next_job_id + 1; omega⟩
        show 0 < s.next_job_id
        omega
      · rw [hother _ _ _ i hik] at hlive ⊢
        have := irange i hi hlive
        exact ⟨this.1, by show (slot s i).id < s.next_job_id + 1; omega⟩
    · intro i hi j hj hli hlj hij
      by_cases hik : i = k
      · by_cases hjk : j = k
        · rw [hik, hjk]
        · subst hik
          rw [hself] at hij
          rw [hother _ _ _ j hjk] at hlj hij
          have := (irange j hj hlj).2
          have hij' : s.next_job_id = (slot s j).id := hij
          omega
      · by_cases hjk : j = k
        · subst hjk
          rw [hself] at hij
          rw [hother _ _ _ i hik] at hli hij
          have := (irange i hi hli).2
          have hij' : (slot s i).id = s.next_job_id := hij
          omega
        · rw [hother _ _ _ i hik] at hli hij
          rw [hother _ _ _ j hjk] at hlj hij
          exact idist i hi j hj hli hlj hij

theorem job_inv_step {s s' : Shell} (hstep : JobStep s s') (hinv : job_inv s) :
    job_inv s' := by
  cases hstep with
  | add pid command is_background => exact job_inv_add pid command is_background hinv
  | remove pid => exact job_inv_of_shrinks (shrinks_remove pid s) hinv
  | sigchld reports => exact job_inv_of_shrinks (shrinks_sigchld_handler reports s) hinv

theorem job_inv_init {s : Shell} (htable : s.job_list = List.replicate MAX_JOBS zero_job)
    (hnext : s.next_job_id = 1) : job_inv s := by
  have hz : ∀ i, (slot s i).pid = 0 := by
    intro i
    unfold slot
    rw [htable, List.getD_eq_getElem?_getD]
    by_cases hi : i < MAX_JOBS
    · simp [List.getElem?_replicate, hi, zero_job]
    · simp [List.getElem?_replicate, hi, zero_job]
  refine ⟨by rw [htable]; simp, by omega, ?_, ?_⟩
  · intro i _ hlive; exact absurd (hz i) hlive
  · intro i _ j _ hlive; exact absurd (hz i) hlive

theorem job_inv_of_reachable {s : Shell} (h : Reachable s) : job_inv s := by
  induction h with
  | init s htable hnext => exact job_inv_init htable hnext
  | step _ hstep ih => exact job_inv_step hstep ih

/-- After one update every live slot carries the job it carried before or
a job whose id is at least the old counter; the counter does not go down. -/
theorem job_step_fresh {s s' : Shell} (hstep : JobStep s s') :
    s.next_job_id ≤ s'.next_job_id ∧
    ∀ i, (slot s' i).pid ≠ 0 → same_job s s' i ∨ s.next_job_id ≤ (slot s' i).id := by
  have of_shrinks : ∀ {t : Shell}, shrinks s t →
      s.next_job_id ≤ t.next_job_id ∧
      ∀ i, (slot t i).pid ≠ 0 → same_job s t i ∨ s.next_job_id ≤ (slot t i).id := by
    intro t ht
    refine ⟨by rw [ht.2.1], fun i hlive => ?_⟩
    rcases ht.2.2 i with h0 | hs
    · exact absurd h0 hlive
    · exact Or.inl hs
  cases hstep with
  | remove pid => exact of_shrinks (shrinks_remove pid s)
  | sigchld reports => exact of_shrinks (shrinks_sigchld_handler reports s)
  | add pid command is_background =>
    cases h : first_index (fun i => decide ((slot s i).pid = 0)) MAX_JOBS 0 with
    | none =>
      rw [add_job_none pid command is_background h]
      exact ⟨le_refl _, fun i _ => Or.inl ⟨rfl, rfl, rfl⟩⟩
    | some k =>
      rw [add_job_some pid command is_background h]
      refine ⟨by show s.next_job_id ≤ s.next_job_id + 1; omega, fun i hlive => ?_⟩
      by_cases hik : i = k
      · subst hik
        by_cases hlt : i < s.job_list.length
        · right
          have hs : ∀ (nj : job_t) (e : List Diag) (n : Int),
              slot { s with job_list := s.job_list.set i nj, next_job_id := n, stderr := e } i
                = nj := fun nj _ _ => slot_set_self s i nj hlt
          rw [hs]
        · exfalso
          apply hlive
          show ((s.job_list.set i _).getD i zero_job).pid = 0
          simp [List.getD_eq_getElem?_getD, List.getElem?_set, hlt, zero_job]
      · left
        have ho : ∀ (nj : job_t) (e : List Diag) (n : Int),
            slot { s with job_list := s.job_list.set k nj, next_job_id := n, stderr := e } i
              = slot s i := fun nj _ _ => slot_set_other s k i nj hik
        simp [same_job, ho]

/-- Along any further updates the counter does not go down, and a live slot
whose id is below the earlier counter still carries the job of that slot. -/
theorem job_steps_fresh {s s' : Shell} (hsteps : Relation.ReflTransGen JobStep s s') :
    s.next_job_id ≤ s'.next_job_id ∧
    ∀ i, (slot s' i).pid ≠ 0 → (slot s' i).id < s.next_job_id → same_job s s' i := by
  induction hsteps with
  | refl => exact ⟨le_refl _, fun i _ _ => ⟨rfl, rfl, rfl⟩⟩
  | tail _ hstep ih =>
    rename_i b c
    obtain ⟨hmono, hkeep⟩ := ih
    obtain ⟨hmono', hfresh⟩ := job_step_fresh hstep
    refine ⟨le_trans hmono hmono', fun i hlive hlt => ?_⟩
    rcases hfresh i hlive with ⟨hp, hid, hc⟩ | hge
    · have hb := hkeep i (by rw [← hp]; exact hlive) (by rw [← hid]; exact hlt)
      exact ⟨hp.trans hb.1, hid.trans hb.2.1, hc.trans hb.2.2⟩
    · omega

/-- C10. In every state reached from the empty job table with
`next_job_id = 1` by calls of `add_job` and `remove_job_by_pid` and runs of
`sigchld_handler`: the live slots (process id non-zero) carry pairwise
distinct ids, each id is positive and below `next_job_id`; and along any
further such updates the counter never goes down, while a live slot whose
id is below the earlier counter still holds the very job (pid, id,
command) that slot held then, so no id is handed to another job. -/
theorem job_ids_unique_and_monotone (s : Shell) (h : Reachable s) :
    s.job_list.length = MAX_JOBS ∧
    1 ≤ s.next_job_id ∧
    (∀ i, i < MAX_JOBS → (slot s i).pid ≠ 0 →
      0 < (slot s i).id ∧ (slot s i).id < s.next_job_id) ∧
    (∀ i, i < MAX_JOBS → ∀ j, j < MAX_JOBS →
      (slot s i).pid ≠ 0 → (slot s j).pid ≠ 0 → (slot s i).id = (slot s j).id → i = j) ∧
    (∀ s', Relation.ReflTransGen JobStep s s' →
      s.next_job_id ≤ s'.next_job_id ∧
      ∀ i, (slot s' i).pid ≠ 0 → (slot s' i).id < s.next_job_id → same_job s s' i) := by
  obtain ⟨h1, h2, h3, h4⟩ := job_inv_of_reachable h
  exact ⟨h1, h2, h3, h4, fun s' hs => job_steps_fresh hs⟩

theorem sample_run_reachable : Reachable sample_run :=
  Reachable.step
    (Reachable.step
      (Reachable.step
        (Reachable.step (Reachable.init init_shell rfl rfl)
          (JobStep.add init_shell 500 "sleep 9 &".toList 1))
        (JobStep.add _ 501 "cat &".toList 1))
      (JobStep.sigchld _ [(500, wstatus.exited 0)]))
    (JobStep.add _ 502 "wc &".toList 1)

/-- C10 at a concrete reachable state: `sample_run`, where slot 0 has been
cleared and reused by the third job, which received id 3. -/
theorem job_ids_unique_and_monotone_witness :
    Reachable sample_run ∧
    (slot sample_run 0).id = 3 ∧ (slot sample_run 1).id = 2 ∧ sample_run.next_job_id = 4 ∧
    (sample_run.job_list.length = MAX_JOBS ∧
    1 ≤ sample_run.next_job_id ∧
    (∀ i, i < MAX_JOBS → (slot sample_run i).pid ≠ 0 →
      0 < (slot sample_run i).id ∧ (slot sample_run i).id < sample_run.next_job_id) ∧
    (∀ i, i < MAX_JOBS → ∀ j, j < MAX_JOBS →
      (slot sample_run i).pid ≠ 0 → (slot sample_run j).pid ≠ 0 →
      (slot sample_run i).id = (slot sample_run j).id → i = j) ∧
    (∀ s', Relation.ReflTransGen JobStep sample_run s' →
      sample_run.next_job_id ≤ s'.next_job_id ∧
      ∀ i, (slot s' i).pid ≠ 0 → (slot s' i).id < sample_run.next_job_id →
        same_job sample_run s' i)) :=
  ⟨sample_run_reachable, by decide, by decide, by decide,
   job_ids_unique_and_monotone sample_run sample_run_reachable⟩

/-! ### Tokens -/

theorem strtok_r_nil (delim : Char → Bool) : strtok_r delim [] = (none, []) := rfl

theorem strtok_r_shorter {delim : Char → Bool} {str token saveptr : List Char}
    (h : strtok_r delim str = (some token, saveptr)) : saveptr.length < str.length := by
  unfold strtok_r at h
  have hsub := (List.dropWhile_sublist (l := str) delim).length_le
  cases hd : str.dropWhile delim with
  | nil => rw [hd] at h; cases h
  | cons c cs =>
    rw [hd] at h hsub
    simp only [Prod.mk.injEq] at h
    rw [← h.2]
    have h2 := (List.dropWhile_sublist (l := c :: cs) (fun x => !delim x)).length_le
    simp only [List.length_drop, List.length_cons] at *
    omega

theorem strtok_all_fuel (delim : Char → Bool) :
    ∀ (n m : Nat) (str : List Char), str.length ≤ n → str.length ≤ m →
      strtok_all delim n str = strtok_all delim m str := by
  intro n
  induction n with
  | zero =>
    intro m str hn _
    have : str = [] := List.length_eq_zero.mp (by omega)
    subst this
    cases m <;> simp [strtok_all, strtok_r_nil]
  | succ n ih =>
    intro m str hn hm
    cases m with
    | zero =>
      have : str = [] := List.length_eq_zero.mp (by omega)
      subst this
      simp [strtok_all, strtok_r_nil]
    | succ m =>
      simp only [strtok_all]
      cases hr : strtok_r delim str with
      | mk token saveptr =>
        cases token with
        | none => rfl
        | some token =>
          have := strtok_r_shorter hr
          simp only
          rw [ih m saveptr (by omega) (by omega)]

/-- Fuel: with at least `str.length` calls `strtok_all` has reached the
`NULL`, so `tokens` is the complete token list. -/
theorem strtok_all_enough (delim : Char → Bool) (n : Nat) (str : List Char)
    (h : str.length ≤ n) : strtok_all delim n str = strtok_all delim str.length str :=
  strtok_all_fuel delim n str.length str h (le_refl _)

/-- The token list is what repeated `strtok_r` calls return up to `NULL`. -/
theorem tokens_unfold (str : List Char) :
    tokens str =
      match strtok_r is_space str with
      | (none, _) => []
      | (some token, saveptr) => token :: tokens saveptr := by
  unfold tokens
  cases str with
  | nil => rfl
  | cons c cs =>
    simp only [List.length_cons, strtok_all]
    cases hr : strtok_r is_space (c :: cs) with
    | mk token saveptr =>
      cases token with
      | none => rfl
      | some token =>
        have := strtok_r_shorter hr
        simp only [List.length_cons] at this
        simp only
        rw [strtok_all_enough is_space cs.length saveptr (by omega)]

/-! ### The scan of `parse_redirection` -/

theorem is_operator_iff (t : List Char) :
    is_operator t = true ↔ t = "<".toList ∨ t = ">".toList ∨ t = ">>".toList := by
  simp [is_operator, or_assoc]

theorem parse_loop_nil (r : Redirection) :
    parse_loop [] r =
      { ret := 1
        out := { r with args := r.args.set r.i cptr.null, stores := r.stores ++ [r.i] }
        diag := [] } := by
  simp [parse_loop]

theorem parse_loop_op_last {t : List Char} (h : is_operator t = true) (r : Redirection) :
    (parse_loop [t] r).ret = 0 ∧ (parse_loop [t] r).out = r := by
  rcases (is_operator_iff t).mp h with h | h | h <;> subst h <;> simp [parse_loop]

theorem parse_loop_op {t : List Char} (h : is_operator t = true) (file : List Char)
    (rest : List (List Char)) (r : Redirection) :
    parse_loop (t :: file :: rest) r = parse_loop rest (redirect r t file) := by
  rcases (is_operator_iff t).mp h with h | h | h <;> subst h <;> simp [parse_loop, redirect]

theorem parse_loop_arg {t : List Char} (h : is_operator t = false)
    (rest : List (List Char)) (r : Redirection) :
    parse_loop (t :: rest) r = parse_loop rest (push_arg r t) := by
  have h' : ¬ (t = "<".toList ∨ t = ">".toList ∨ t = ">>".toList) := by
    rw [← is_operator_iff, h]; simp
  push_neg at h'
  obtain ⟨h1, h2, h3⟩ := h'
  by_cases hi : r.i < MAX_ARGS - 1
  · cases rest <;> simp only [parse_loop, h1, h2, h3, if_false, push_arg, hi, if_true]
  · cases rest <;> simp only [parse_loop, h1, h2, h3, if_false, push_arg, hi]

/-- Induction along the scan: the empty list, an operator as last token,
an operator with its file name, and an argument token. -/
theorem scan_induction {P : List (List Char) → Prop} (nil : P [])
    (op_last : ∀ t, is_operator t = true → P [t])
    (op : ∀ t file rest, is_operator t = true → P rest → P (t :: file :: rest))
    (arg : ∀ t rest, is_operator t = false → P rest → P (t :: rest)) :
    ∀ toks, P toks := by
  have key : ∀ n, ∀ toks : List (List Char), toks.length ≤ n → P toks := by
    intro n
    induction n with
    | zero =>
      intro toks h
      have : toks = [] := List.length_eq_zero.mp (by omega)
      subst this; exact nil
    | succ n ih =>
      intro toks h
      match toks, h with
      | [], _ => exact nil
      | t :: rest, h =>
        cases ht : is_operator t with
        | false => exact arg t rest ht (ih rest (by simp at h; omega))
        | true =>
          match rest, h with
          | [], _ => exact op_last t ht
          | file :: rest', h => exact op t file rest' ht (ih rest' (by simp at h; omega))
  exact fun toks => key toks.length toks (le_refl _)

theorem operator_without_file_op {t : List Char} (h : is_operator t = true)
    (file : List Char) (rest : List (List Char)) :
    operator_without_file (t :: file :: rest) = operator_without_file rest := by
  simp [operator_without_file, h]

theorem operator_without_file_arg {t : List Char} (h : is_operator t = false)
    (rest : List (List Char)) :
    operator_without_file (t :: rest) = operator_without_file rest := by
  cases rest with
  | nil => simp [operator_without_file, h]
  | cons f rest => simp [operator_without_file, h]

theorem parse_loop_ret (toks : List (List Char)) :
    ∀ r, (parse_loop toks r).ret = if operator_without_file toks = true then 0 else 1 := by
  induction toks using scan_induction with
  | nil => intro r; simp [parse_loop_nil, operator_without_file]
  | op_last t h => intro r; simp [(parse_loop_op_last h r).1, operator_without_file, h]
  | op t file rest h ih =>
    intro r
    rw [parse_loop_op h, operator_without_file_op h, ih]
  | arg t rest h ih =>
    intro r
    rw [parse_loop_arg h, operator_without_file_arg h, ih]

theorem trailing_operators_le (toks : List (List Char)) :
    trailing_operators toks ≤ toks.length := by
  unfold trailing_operators
  have := (List.takeWhile_sublist (l := toks.reverse) is_operator).length_le
  simpa using this

theorem trailing_operators_cons (t : List Char) (toks : List (List Char)) :
    trailing_operators (t :: toks) =
      if trailing_operators toks = toks.length then
        toks.length + (if is_operator t = true then 1 else 0)
      else trailing_operators toks := by
  unfold trailing_operators
  rw [List.reverse_cons, List.takeWhile_append]
  by_cases h : (List.takeWhile is_operator toks.reverse).length = toks.length
  · have h' : (List.takeWhile is_operator toks.reverse).length = toks.reverse.length := by
      simpa using h
    rw [if_pos h', if_pos h]
    by_cases ht : is_operator t = true <;> simp [List.takeWhile, ht]
  · have h' : ¬ (List.takeWhile is_operator toks.reverse).length = toks.reverse.length := by
      simpa using h
    rw [if_neg h', if_neg h]

/-- The scan ends on an operator without file name exactly when the run of
operator tokens at the end of the stage has odd length. -/
theorem operator_without_file_iff_odd (toks : List (List Char)) :
    operator_without_file toks = true ↔ Odd (trailing_operators toks) := by
  induction toks using scan_induction with
  | nil => simp [operator_without_file, trailing_operators]
  | op_last t h =>
    simp [operator_without_file, h, trailing_operators_cons, trailing_operators]
  | op t file rest h ih =>
    rw [operator_without_file_op h, ih, trailing_operators_cons t, trailing_operators_cons file]
    have hle := trailing_operators_le rest
    by_cases hall : trailing_operators rest = rest.length
    · by_cases hf : is_operator file = true
      · simp only [hall, if_true, hf, h, List.length_cons]
        rw [show rest.length + 1 + 1 = rest.length + 2 from rfl]
        simp [Nat.odd_add]
      · have : ¬ (rest.length + 0 = rest.length + 1) := by omega
        simp [hall, hf]
    · have : ¬ (trailing_operators rest = rest.length + 1) := by omega
      simp [hall, this]
  | arg t rest h ih =>
    rw [operator_without_file_arg h, ih, trailing_operators_cons]
    by_cases hall : trailing_operators rest = rest.length
    · simp [hall, h]
    · simp [hall]

/-- C3. `parse_redirection` returns 0 exactly when the left-to-right scan
of the tokens of the stage, in which each operator `<`, `>`, `>>` takes the
token after it as its file name, reaches an operator with no token after
it, and returns 1 in every other case. In closed form: it fails exactly
when the run of operator tokens at the end of the stage has odd length. -/
theorem parse_redirection_fails_iff (command_str : List Char) (args : List cptr) :
    ((parse_redirection command_str args).ret = 0 ↔
      operator_without_file (tokens command_str) = true) ∧
    ((parse_redirection command_str args).ret = 1 ↔
      operator_without_file (tokens command_str) = false) ∧
    ((parse_redirection command_str args).ret = 0 ↔
      Odd (trailing_operators (tokens command_str))) := by
  have h := parse_loop_ret (tokens command_str) (parse_start args)
  have h0 : (parse_redirection command_str args).ret = 0 ↔
      operator_without_file (tokens command_str) = true := by
    unfold parse_redirection
    rw [h]
    cases operator_without_file (tokens command_str) <;> simp
  refine ⟨h0, ?_, h0.trans (operator_without_file_iff_odd _)⟩
  unfold parse_redirection
  rw [h]
  cases operator_without_file (tokens command_str) <;> simp

/-! ### The argument vector -/

theorem plain_tokens_op {t : List Char} (h : is_operator t = true)
    (file : List Char) (rest : List (List Char)) :
    plain_tokens (t :: file :: rest) = plain_tokens rest := by
  simp [plain_tokens, h]

theorem plain_tokens_arg {t : List Char} (h : is_operator t = false)
    (rest : List (List Char)) :
    plain_tokens (t :: rest) = t :: plain_tokens rest := by
  cases rest with
  | nil => simp [plain_tokens, h]
  | cons f rest => simp [plain_tokens, h]

theorem redirect_args (r : Redirection) (op file : List Char) :
    (redirect r op file).args = r.args ∧ (redirect r op file).i = r.i ∧
    (redirect r op file).stores = r.stores := by
  unfold redirect
  split
  · exact ⟨rfl, rfl, rfl⟩
  · split <;> exact ⟨rfl, rfl, rfl⟩

theorem parse_loop_args (toks : List (List Char)) :
    ∀ (r : Redirection) (pre suf : List cptr),
      r.args = pre ++ suf → pre.length = r.i → r.i + suf.length = MAX_ARGS →
      r.i ≤ MAX_ARGS - 1 → (parse_loop toks r).ret = 1 →
      (parse_loop toks r).out.args =
        pre ++ (((plain_tokens toks).take
          (min (plain_tokens toks).length (MAX_ARGS - 1 - r.i))).map cptr.str
          ++ cptr.null :: suf.drop (min (plain_tokens toks).length (MAX_ARGS - 1 - r.i) + 1)) ∧
      (parse_loop toks r).out.i = r.i + min (plain_tokens toks).length (MAX_ARGS - 1 - r.i) ∧
      (parse_loop toks r).out.stores =
        r.stores ++
          List.range' r.i (min (plain_tokens toks).length (MAX_ARGS - 1 - r.i) + 1) := by
  induction toks using scan_induction with
  | nil =>
    intro r pre suf hargs hpre hlen hi _
    rw [parse_loop_nil]
    simp only [plain_tokens, List.length_nil, Nat.zero_min, List.take_nil, List.map_nil,
      List.nil_append, Nat.add_zero, zero_add]
    refine ⟨?_, trivial, ?_⟩
    · cases suf with
      | nil => simp [MAX_ARGS] at hlen hi; omega
      | cons a suf' =>
        rw [hargs, List.set_append, if_neg (by omega)]
        simp [hpre]
    · simp [List.range']
  | op_last t h =>
    intro r pre suf _ _ _ _ hret
    rw [(parse_loop_op_last h r).1] at hret
    cases hret
  | op t file rest h ih =>
    intro r pre suf hargs hpre hlen hi hret
    rw [parse_loop_op h] at hret ⊢
    obtain ⟨ha, hi', hs⟩ := redirect_args r t file
    have := ih (redirect r t file) pre suf (by rw [ha]; exact hargs) (by rw [hi']; exact hpre)
      (by rw [hi']; exact hlen) (by rw [hi']; exact hi) hret
    rw [plain_tokens_op h, ← hi', ← hs]
    exact this
  | arg t rest h ih =>
    intro r pre suf hargs hpre hlen hi hret
    rw [parse_loop_arg h] at hret ⊢
    rw [plain_tokens_arg h]
    by_cases hlt : r.i < MAX_ARGS - 1
    · cases suf with
      | nil => simp [MAX_ARGS] at hlen hlt; omega
      | cons a suf' =>
        have hp : push_arg r t =
            { r with
              args := r.args.set r.i (cptr.str t)
              i := r.i + 1
              stores := r.stores ++ [r.i] } := by
          simp [push_arg, hlt]
        have hset : r.args.set r.i (cptr.str t) = (pre ++ [cptr.str t]) ++ suf' := by
          rw [hargs, List.set_append, if_neg (by omega)]
          simp [hpre]
        rw [hp] at hret ⊢
        have := ih _ (pre ++ [cptr.str t]) suf' hset (by simp [hpre])
          (by simp only [List.length_cons] at hlen; show r.i + 1 + suf'.length = MAX_ARGS; omega)
          (by show r.i + 1 ≤ MAX_ARGS - 1; omega) hret
        simp only at this
        obtain ⟨h1, h2, h3⟩ := this
        have hk : min ((t :: plain_tokens rest).length) (MAX_ARGS - 1 - r.i) =
            min (plain_tokens rest).length (MAX_ARGS - 1 - (r.i + 1)) + 1 := by
          simp only [List.length_cons]; omega
        rw [hk]
        refine ⟨?_, ?_, ?_⟩
        · rw [h1]; simp
        · rw [h2]; omega
        · rw [h3, List.range'_succ r.i]; simp
    · have hp : push_arg r t = r := by simp [push_arg, hlt]
      rw [hp] at hret ⊢
      have := ih r pre suf hargs hpre hlen hi hret
      have hk : MAX_ARGS - 1 - r.i = 0 := by omega
      rw [hk] at this ⊢
      simpa using this

theorem argv_map_str (l : List (List Char)) (rest : List cptr) :
    argv (l.map cptr.str ++ cptr.null :: rest) = l := by
  induction l with
  | nil => simp [argv]
  | cons a l ih => simp [argv, ih]

theorem parse_redirection_args_aux (command_str : List Char) (args : List cptr)
    (hlen : args.length = MAX_ARGS)
    (hret : (parse_redirection command_str args).ret = 1) :
    argv (parse_redirection command_str args).out.args =
      (plain_tokens (tokens command_str)).take (MAX_ARGS - 1) ∧
    (parse_redirection command_str args).out.args =
      ((plain_tokens (tokens command_str)).take (MAX_ARGS - 1)).map cptr.str ++
        cptr.null ::
          args.drop (min (plain_tokens (tokens command_str)).length (MAX_ARGS - 1) + 1) := by
  have h := parse_loop_args (tokens command_str) (parse_start args) [] args rfl rfl
    (by simpa [parse_start] using hlen) (by simp [parse_start]) hret
  simp only [parse_start, Nat.sub_zero, List.nil_append, zero_add] at h
  obtain ⟨h1, _, _⟩ := h
  have htake : (plain_tokens (tokens command_str)).take
      (min (plain_tokens (tokens command_str)).length (MAX_ARGS - 1)) =
      (plain_tokens (tokens command_str)).take (MAX_ARGS - 1) := by
    rw [List.take_eq_take]
    omega
  rw [htake] at h1
  refine ⟨?_, h1⟩
  unfold parse_redirection
  simp only [parse_start]
  rw [h1]
  exact argv_map_str _ _

/-- C4. When `parse_redirection` succeeds on a stage with `n` plain tokens
(neither an operator nor the file name taken by one), the array `args`
holds the first `min n (MAX_ARGS - 1)` of them in their order, then `NULL`,
and behind the `NULL` the cells it had before; the vector `execvp` reads is
the first `MAX_ARGS - 1 = 63` plain tokens; the indices assigned are
`0, ..., min n 63`, none beyond `MAX_ARGS - 1`. -/
theorem parse_redirection_args (command_str : List Char) (args : List cptr)
    (hlen : args.length = MAX_ARGS)
    (hret : (parse_redirection command_str args).ret = 1) :
    (parse_redirection command_str args).out.args =
      ((plain_tokens (tokens command_str)).take (MAX_ARGS - 1)).map cptr.str ++
        cptr.null ::
          args.drop (min (plain_tokens (tokens command_str)).length (MAX_ARGS - 1) + 1) ∧
    ((plain_tokens (tokens command_str)).take (MAX_ARGS - 1)).length =
      min (plain_tokens (tokens command_str)).length (MAX_ARGS - 1) ∧
    argv (parse_redirection command_str args).out.args =
      (plain_tokens (tokens command_str)).take (MAX_ARGS - 1) ∧
    (parse_redirection command_str args).out.args.length = MAX_ARGS ∧
    (parse_redirection command_str args).out.stores =
      List.range (min (plain_tokens (tokens command_str)).length (MAX_ARGS - 1) + 1) ∧
    (∀ idx ∈ (parse_redirection command_str args).out.stores, idx ≤ MAX_ARGS - 1) := by
  have h := parse_loop_args (tokens command_str) (parse_start args) [] args rfl rfl
    (by simpa [parse_start] using hlen) (by simp [parse_start]) hret
  simp only [parse_start, Nat.sub_zero, List.nil_append, zero_add] at h
  obtain ⟨h1, _, h3⟩ := h
  have htake : (plain_tokens (tokens command_str)).take
      (min (plain_tokens (tokens command_str)).length (MAX_ARGS - 1)) =
      (plain_tokens (tokens command_str)).take (MAX_ARGS - 1) := by
    rw [List.take_eq_take]
    omega
  rw [htake] at h1
  have hstores : (parse_redirection command_str args).out.stores =
      List.range (min (plain_tokens (tokens command_str)).length (MAX_ARGS - 1) + 1) := by
    unfold parse_redirection
    simp only [parse_start]
    rw [h3, List.range_eq_range']
  refine ⟨h1, by rw [List.length_take, Nat.min_comm], ?_, ?_, hstores, ?_⟩
  · unfold parse_redirection
    simp only [parse_start]
    rw [h1]
    exact argv_map_str _ _
  · unfold parse_redirection
    simp only [parse_start]
    rw [h1]
    simp only [List.length_append, List.length_map, List.length_take, List.length_cons,
      List.length_drop, hlen]
    have : MAX_ARGS = 64 := rfl
    omega
  · intro idx hidx
    rw [hstores, List.mem_range] at hidx
    omega

theorem tokens_a_blank (rest : List Char) :
    tokens ('a' :: ' ' :: rest) = ['a'] :: tokens rest := by
  rw [tokens_unfold]
  simp [strtok_r, is_space]

theorem tokens_many_a (n : Nat) :
    tokens (List.replicate n "a ".toList).flatten = List.replicate n "a".toList := by
  induction n with
  | zero => rfl
  | succ n ih =>
    rw [List.replicate_succ, List.flatten_cons]
    show tokens ('a' :: ' ' :: (List.replicate n "a ".toList).flatten) = _
    rw [tokens_a_blank, ih]
    rfl

theorem plain_tokens_many_a (n : Nat) :
    plain_tokens (List.replicate n "a".toList) = List.replicate n "a".toList ∧
    operator_without_file (List.replicate n "a".toList) = false := by
  induction n with
  | zero => exact ⟨rfl, rfl⟩
  | succ n ih =>
    rw [List.replicate_succ, plain_tokens_arg (by decide), operator_without_file_arg (by decide),
      ih.1, ih.2]
    exact ⟨rfl, rfl⟩

theorem seventy_args_parse : (parse_redirection seventy_args fresh_args).ret = 1 := by
  unfold parse_redirection seventy_args
  rw [parse_loop_ret, tokens_many_a, (plain_tokens_many_a 70).2]
  rfl

/-- C4 at concrete inputs: a stage with two plain tokens, and a stage with
seventy, of which sixty-three are kept. -/
theorem parse_redirection_args_witness :
    ((parse_redirection "sort -r < in.txt > out.txt".toList fresh_args).out.args =
      ((plain_tokens (tokens "sort -r < in.txt > out.txt".toList)).take (MAX_ARGS - 1)).map
          cptr.str ++
        cptr.null ::
          fresh_args.drop
            (min (plain_tokens (tokens "sort -r < in.txt > out.txt".toList)).length
              (MAX_ARGS - 1) + 1) ∧
    ((plain_tokens (tokens "sort -r < in.txt > out.txt".toList)).take (MAX_ARGS - 1)).length =
      min (plain_tokens (tokens "sort -r < in.txt > out.txt".toList)).length (MAX_ARGS - 1) ∧
    argv (parse_redirection "sort -r < in.txt > out.txt".toList fresh_args).out.args =
      (plain_tokens (tokens "sort -r < in.txt > out.txt".toList)).take (MAX_ARGS - 1) ∧
    (parse_redirection "sort -r < in.txt > out.txt".toList fresh_args).out.args.length =
      MAX_ARGS ∧
    (parse_redirection "sort -r < in.txt > out.txt".toList fresh_args).out.stores =
      List.range
        (min (plain_tokens (tokens "sort -r < in.txt > out.txt".toList)).length
          (MAX_ARGS - 1) + 1) ∧
    (∀ idx ∈ (parse_redirection "sort -r < in.txt > out.txt".toList fresh_args).out.stores,
      idx ≤ MAX_ARGS - 1)) ∧
    argv (parse_redirection "sort -r < in.txt > out.txt".toList fresh_args).out.args =
      ["sort".toList, "-r".toList] ∧
    argv (parse_redirection seventy_args fresh_args).out.args =
      List.replicate 63 "a".toList :=
  ⟨parse_redirection_args "sort -r < in.txt > out.txt".toList fresh_args (by decide)
      (by decide),
   by decide,
   by
    rw [(parse_redirection_args seventy_args fresh_args (by decide) seventy_args_parse).2.2.1]
    unfold seventy_args
    rw [tokens_many_a, (plain_tokens_many_a 70).1]
    decide⟩

/-! ### The redirection targets -/

theorem redirections_op {t : List Char} (h : is_operator t = true)
    (file : List Char) (rest : List (List Char)) :
    redirections (t :: file :: rest) = (t, file) :: redirections rest := by
  simp [redirections, h]

theorem redirections_arg {t : List Char} (h : is_operator t = false)
    (rest : List (List Char)) :
    redirections (t :: rest) = redirections rest := by
  cases rest with
  | nil => simp [redirections]
  | cons f rest => simp [redirections, h]

theorem getLast?_filter_cons {α : Type} (q : α → Bool) (p : α) (rs : List α) :
    ((p :: rs).filter q).getLast? =
      ((rs.filter q).getLast?).or (if q p = true then some p else none) := by
  by_cases hq : q p = true
  · rw [List.filter_cons, if_pos hq, List.getLast?_cons, if_pos hq]
    cases (rs.filter q).getLast? <;> simp
  · rw [List.filter_cons, if_neg hq, if_neg hq]
    cases (rs.filter q).getLast? <;> simp

theorem push_arg_targets (r : Redirection) (t : List Char) :
    (push_arg r t).input_file = r.input_file ∧ (push_arg r t).output_file = r.output_file ∧
    (push_arg r t).append_flag = r.append_flag := by
  unfold push_arg
  split <;> exact ⟨rfl, rfl, rfl⟩

theorem parse_loop_targets (toks : List (List Char)) :
    ∀ r, (parse_loop toks r).ret = 1 →
      (parse_loop toks r).out.input_file =
        (last_input (redirections toks)).or r.input_file ∧
      (parse_loop toks r).out.output_file =
        ((last_output (redirections toks)).map Prod.snd).or r.output_file ∧
      (parse_loop toks r).out.append_flag =
        append_of (last_output (redirections toks)) r.append_flag := by
  induction toks using scan_induction with
  | nil =>
    intro r _
    rw [parse_loop_nil]
    simp [redirections, last_input, last_output, append_of]
  | op_last t h =>
    intro r hret
    rw [(parse_loop_op_last h r).1] at hret
    cases hret
  | op t file rest h ih =>
    intro r hret
    rw [parse_loop_op h] at hret ⊢
    obtain ⟨h1, h2, h3⟩ := ih _ hret
    rw [h1, h2, h3, redirections_op h]
    unfold last_input last_output
    rw [getLast?_filter_cons, getLast?_filter_cons]
    rcases (is_operator_iff t).mp h with ht | ht | ht <;> subst ht
    · refine ⟨?_, ?_, ?_⟩
      · cases (List.filter (fun p => decide (p.1 = "<".toList)) (redirections rest)).getLast? <;>
          simp [redirect]
      · cases (List.filter (fun p => decide (p.1 = ">".toList) || decide (p.1 = ">>".toList))
          (redirections rest)).getLast? <;> simp [redirect]
      · cases (List.filter (fun p => decide (p.1 = ">".toList) || decide (p.1 = ">>".toList))
          (redirections rest)).getLast? <;> simp [redirect, append_of]
    · refine ⟨?_, ?_, ?_⟩
      · cases (List.filter (fun p => decide (p.1 = "<".toList)) (redirections rest)).getLast? <;>
          simp [redirect]
      · cases (List.filter (fun p => decide (p.1 = ">".toList) || decide (p.1 = ">>".toList))
          (redirections rest)).getLast? <;> simp [redirect]
      · cases (List.filter (fun p => decide (p.1 = ">".toList) || decide (p.1 = ">>".toList))
          (redirections rest)).getLast? <;> simp [redirect, append_of]
    · refine ⟨?_, ?_, ?_⟩
      · cases (List.filter (fun p => decide (p.1 = "<".toList)) (redirections rest)).getLast? <;>
          simp [redirect]
      · cases (List.filter (fun p => decide (p.1 = ">".toList) || decide (p.1 = ">>".toList))
          (redirections rest)).getLast? <;> simp [redirect]
      · cases (List.filter (fun p => decide (p.1 = ">".toList) || decide (p.1 = ">>".toList))
          (redirections rest)).getLast? <;> simp [redirect, append_of]
  | arg t rest h ih =>
    intro r hret
    rw [parse_loop_arg h] at hret ⊢
    obtain ⟨h1, h2, h3⟩ := ih _ hret
    obtain ⟨p1, p2, p3⟩ := push_arg_targets r t
    rw [h1, h2, h3, redirections_arg h, p1, p2, p3]
    exact ⟨rfl, rfl, rfl⟩

/-- C5. When `parse_redirection` succeeds, `*input_file` is the file name
after the last `<` operator of the stage (`NULL` when there is none),
`*output_file` is the file name after the last `>` or `>>` operator
(`NULL` when there is none), and `*append_flag` is 1 exactly when that last
output operator is `>>`, and 0 otherwise. -/
theorem parse_redirection_targets (command_str : List Char) (args : List cptr)
    (hret : (parse_redirection command_str args).ret = 1) :
    (parse_redirection command_str args).out.input_file =
      last_input (redirections (tokens command_str)) ∧
    (parse_redirection command_str args).out.output_file =
      (last_output (redirections (tokens command_str))).map Prod.snd ∧
    ((parse_redirection command_str args).out.append_flag = 1 ↔
      (last_output (redirections (tokens command_str))).map Prod.fst = some ">>".toList) ∧
    ((parse_redirection command_str args).out.append_flag ≠ 1 →
      (parse_redirection command_str args).out.append_flag = 0) := by
  obtain ⟨h1, h2, h3⟩ := parse_loop_targets (tokens command_str) (parse_start args) hret
  unfold parse_redirection
  rw [h1, h2, h3]
  simp only [parse_start, Option.or_none]
  refine ⟨trivial, trivial, ?_, ?_⟩
  · cases last_output (redirections (tokens command_str)) with
    | none => simp [append_of]
    | some p =>
      by_cases hp : p.1 = ">>".toList <;> simp [append_of, hp]
  · cases last_output (redirections (tokens command_str)) with
    | none => simp [append_of]
    | some p =>
      by_cases hp : p.1 = ">>".toList <;> simp [append_of, hp]

/-- C5 at a concrete input: two input and three output redirections, of
which the last of each direction is kept. -/
theorem parse_redirection_targets_witness :
    ((parse_redirection "sort < a < b > c >> d > e -r".toList fresh_args).out.input_file =
      last_input (redirections (tokens "sort < a < b > c >> d > e -r".toList)) ∧
    (parse_redirection "sort < a < b > c >> d > e -r".toList fresh_args).out.output_file =
      (last_output (redirections (tokens "sort < a < b > c >> d > e -r".toList))).map
        Prod.snd ∧
    ((parse_redirection "sort < a < b > c >> d > e -r".toList fresh_args).out.append_flag = 1 ↔
      (last_output (redirections (tokens "sort < a < b > c >> d > e -r".toList))).map
        Prod.fst = some ">>".toList) ∧
    ((parse_redirection "sort < a < b > c >> d > e -r".toList fresh_args).out.append_flag ≠ 1 →
      (parse_redirection "sort < a < b > c >> d > e -r".toList fresh_args).out.append_flag
        = 0)) ∧
    (parse_redirection "sort < a < b > c >> d > e -r".toList fresh_args).out.input_file =
      some "b".toList ∧
    (parse_redirection "sort < a < b > c >> d > e -r".toList fresh_args).out.output_file =
      some "e".toList ∧
    (parse_redirection "sort < a < b > c >> d > e -r".toList fresh_args).out.append_flag = 0 ∧
    (parse_redirection "log >> x".toList fresh_args).out.append_flag = 1 :=
  ⟨parse_redirection_targets "sort < a < b > c >> d > e -r".toList fresh_args (by decide),
   by decide, by decide, by decide, by decide⟩

/-! ### Operators written together with their file name -/

theorem glued_not_operator {t : List Char} (h : glued t) (hne : t ≠ ">>".toList) :
    is_operator t = false := by
  obtain ⟨op, path, hop, hpath, rfl⟩ := h
  cases path with
  | nil => exact absurd rfl hpath
  | cons c cs =>
    rcases (is_operator_iff op).mp hop with h | h | h <;> subst h
    · simp [is_operator]
    · have : c ≠ '>' ∨ cs ≠ [] := by
        by_contra hcon
        push_neg at hcon
        apply hne
        rw [hcon.1, hcon.2]
        rfl
      rcases this with h | h <;> simp [is_operator, h]
    · simp [is_operator]

theorem scan_append (pre : List (List Char)) :
    operator_without_file pre = false → ∀ rest,
      operator_without_file (pre ++ rest) = operator_without_file rest ∧
      plain_tokens (pre ++ rest) = plain_tokens pre ++ plain_tokens rest ∧
      redirections (pre ++ rest) = redirections pre ++ redirections rest := by
  induction pre using scan_induction with
  | nil => intro _ rest; simp [plain_tokens, redirections]
  | op_last t h =>
    intro hpre
    simp [operator_without_file, h] at hpre
  | op t file pre h ih =>
    intro hpre rest
    rw [operator_without_file_op h] at hpre
    obtain ⟨h1, h2, h3⟩ := ih hpre rest
    rw [List.cons_append, List.cons_append, operator_without_file_op h, plain_tokens_op h,
      plain_tokens_op h, redirections_op h, redirections_op h, h1, h2, h3]
    exact ⟨rfl, rfl, rfl⟩
  | arg t pre h ih =>
    intro hpre rest
    rw [operator_without_file_arg h] at hpre
    obtain ⟨h1, h2, h3⟩ := ih hpre rest
    rw [List.cons_append, operator_without_file_arg h, plain_tokens_arg h, plain_tokens_arg h,
      redirections_arg h, redirections_arg h, h1, h2, h3]
    exact ⟨rfl, rfl, rfl⟩

/-- C6, the claim at concrete stages: for `cat <in.txt`, `ls >out.txt` and
`ls >>log` the call succeeds, records no target and puts the whole token
into the argument vector; so the path is not recorded as a target and the
token is not kept out of the argument vector. -/
theorem glued_redirection_counterexample :
    (parse_redirection "cat <in.txt".toList fresh_args).ret = 1 ∧
    (parse_redirection "cat <in.txt".toList fresh_args).out.input_file = none ∧
    (parse_redirection "cat <in.txt".toList fresh_args).out.input_file ≠
      some "in.txt".toList ∧
    argv (parse_redirection "cat <in.txt".toList fresh_args).out.args =
      ["cat".toList, "<in.txt".toList] ∧
    "<in.txt".toList ∈ argv (parse_redirection "cat <in.txt".toList fresh_args).out.args ∧
    (parse_redirection "ls >out.txt".toList fresh_args).ret = 1 ∧
    (parse_redirection "ls >out.txt".toList fresh_args).out.output_file = none ∧
    argv (parse_redirection "ls >out.txt".toList fresh_args).out.args =
      ["ls".toList, ">out.txt".toList] ∧
    (parse_redirection "ls >>log".toList fresh_args).ret = 1 ∧
    (parse_redirection "ls >>log".toList fresh_args).out.output_file = none ∧
    (parse_redirection "ls >>log".toList fresh_args).out.append_flag = 0 ∧
    argv (parse_redirection "ls >>log".toList fresh_args).out.args =
      ["ls".toList, ">>log".toList] := by
  decide

/-- C6, amended. The redirection tokens are the separate tokens `<`, `>`
and `>>`, each followed by a separate file-name token. A token `t` made of
an operator immediately followed by a non-empty path (and not itself the
operator `>>`), reached by the scan as a token of its own, is an ordinary
argument: when the call succeeds, the vector `execvp` reads is the first
`MAX_ARGS - 1` of the plain tokens with `t` among them at its place, and
the input target, output target and append flag are those of the stage
with `t` deleted. -/
theorem glued_token_is_argument (command_str : List Char) (args : List cptr)
    (pre post : List (List Char)) (t : List Char)
    (hglued : glued t) (hne : t ≠ ">>".toList)
    (htoks : tokens command_str = pre ++ t :: post)
    (hpre : operator_without_file pre = false)
    (hlen : args.length = MAX_ARGS)
    (hret : (parse_redirection command_str args).ret = 1) :
    is_operator t = false ∧
    argv (parse_redirection command_str args).out.args =
      (plain_tokens pre ++ t :: plain_tokens post).take (MAX_ARGS - 1) ∧
    ((plain_tokens pre).length < MAX_ARGS - 1 →
      t ∈ argv (parse_redirection command_str args).out.args) ∧
    (parse_loop (pre ++ post) (parse_start args)).ret = 1 ∧
    (parse_redirection command_str args).out.input_file =
      (parse_loop (pre ++ post) (parse_start args)).out.input_file ∧
    (parse_redirection command_str args).out.output_file =
      (parse_loop (pre ++ post) (parse_start args)).out.output_file ∧
    (parse_redirection command_str args).out.append_flag =
      (parse_loop (pre ++ post) (parse_start args)).out.append_flag := by
  have hop := glued_not_operator hglued hne
  obtain ⟨a1, a2, a3⟩ := scan_append pre hpre (t :: post)
  obtain ⟨b1, b2, b3⟩ := scan_append pre hpre post
  rw [operator_without_file_arg hop] at a1
  rw [plain_tokens_arg hop] at a2
  rw [redirections_arg hop] at a3
  have hret' : (parse_loop (pre ++ post) (parse_start args)).ret = 1 := by
    have h := parse_loop_ret (tokens command_str) (parse_start args)
    unfold parse_redirection at hret
    rw [hret, htoks, a1] at h
    rw [parse_loop_ret, b1]
    exact h.symm
  have hargv := (parse_redirection_args_aux command_str args hlen hret).1
  obtain ⟨c1, c2, c3⟩ := parse_loop_targets (tokens command_str) (parse_start args) hret
  obtain ⟨d1, d2, d3⟩ := parse_loop_targets (pre ++ post) (parse_start args) hret'
  rw [htoks, a2] at hargv
  rw [htoks, a3] at c1 c2 c3
  rw [b3] at d1 d2 d3
  refine ⟨hop, hargv, ?_, hret', ?_, ?_, ?_⟩
  · intro hlt
    rw [hargv, List.take_append_eq_append_take]
    apply List.mem_append_right
    have : MAX_ARGS - 1 - (plain_tokens pre).length = (MAX_ARGS - 1 - (plain_tokens pre).length - 1) + 1 := by
      omega
    rw [this, List.take_succ_cons]
    exact List.mem_cons_self _ _
  · unfold parse_redirection; rw [htoks, c1, d1]
  · unfold parse_redirection; rw [htoks, c2, d2]
  · unfold parse_redirection; rw [htoks, c3, d3]

/-- C6 amended, at a concrete input: in `grep x <in.txt > out` the token
`<in.txt` is an argument and the output target is `out`. -/
theorem glued_token_is_argument_witness :
    (is_operator "<in.txt".toList = false ∧
    argv (parse_redirection "grep x <in.txt > out".toList fresh_args).out.args =
      (plain_tokens ["grep".toList, "x".toList] ++
        "<in.txt".toList :: plain_tokens [">".toList, "out".toList]).take (MAX_ARGS - 1) ∧
    ((plain_tokens ["grep".toList, "x".toList]).length < MAX_ARGS - 1 →
      "<in.txt".toList ∈
        argv (parse_redirection "grep x <in.txt > out".toList fresh_args).out.args) ∧
    (parse_loop (["grep".toList, "x".toList] ++ [">".toList, "out".toList])
      (parse_start fresh_args)).ret = 1 ∧
    (parse_redirection "grep x <in.txt > out".toList fresh_args).out.input_file =
      (parse_loop (["grep".toList, "x".toList] ++ [">".toList, "out".toList])
        (parse_start fresh_args)).out.input_file ∧
    (parse_redirection "grep x <in.txt > out".toList fresh_args).out.output_file =
      (parse_loop (["grep".toList, "x".toList] ++ [">".toList, "out".toList])
        (parse_start fresh_args)).out.output_file ∧
    (parse_redirection "grep x <in.txt > out".toList fresh_args).out.append_flag =
      (parse_loop (["grep".toList, "x".toList] ++ [">".toList, "out".toList])
        (parse_start fresh_args)).out.append_flag) ∧
    argv (parse_redirection "grep x <in.txt > out".toList fresh_args).out.args =
      ["grep".toList, "x".toList, "<in.txt".toList] ∧
    (parse_redirection "grep x <in.txt > out".toList fresh_args).out.input_file = none ∧
    (parse_redirection "grep x <in.txt > out".toList fresh_args).out.output_file =
      some "out".toList :=
  ⟨glued_token_is_argument "grep x <in.txt > out".toList fresh_args
      ["grep".toList, "x".toList] [">".toList, "out".toList] "<in.txt".toList
      ⟨"<".toList, "in.txt".toList, by decide, by decide, by decide⟩ (by decide) (by decide)
      (by decide) (by decide) (by decide),
   by decide, by decide, by decide⟩

/-! ### The orchestrator: what one stage does to the operating-system state -/

theorem add_job_os (pid : Int) (command : List Char) (is_background : Int) (s : Shell) :
    (add_job pid command is_background s).open_fds = s.open_fds ∧
    (add_job pid command is_background s).pipes = s.pipes ∧
    (add_job pid command is_background s).children = s.children := by
  unfold add_job
  split <;> exact ⟨rfl, rfl, rfl⟩

theorem remove_job_by_pid_os (pid : Int) (s : Shell) :
    (remove_job_by_pid pid s).open_fds = s.open_fds ∧
    (remove_job_by_pid pid s).pipes = s.pipes ∧
    (remove_job_by_pid pid s).children = s.children := by
  unfold remove_job_by_pid
  split <;> exact ⟨rfl, rfl, rfl⟩

theorem mark_waited_length (pid : Int) (cs : List Child) :
    (mark_waited pid cs).length = cs.length := by
  induction cs with
  | nil => rfl
  | cons c cs ih =>
    unfold mark_waited
    split
    · simp [ih]
    · split <;> simp

theorem mark_waited_append (pid : Int) (cs : List Child) (c : Child) (h : c.pid = pid) :
    mark_waited pid (cs ++ [c]) = cs ++ [{ c with waited := true }] := by
  induction cs with
  | nil => simp [mark_waited, h]
  | cons d cs ih =>
    rw [List.cons_append, mark_waited, if_pos (by simp [h]), ih]
    rfl

theorem sys_close_fields (fd : Nat) (s : Shell) :
    (sys_close fd s).open_fds = s.open_fds.filter (fun x => x ≠ fd) ∧
    (sys_close fd s).pipes = s.pipes ∧ (sys_close fd s).children = s.children :=
  ⟨rfl, rfl, rfl⟩

theorem execute_single_command_eq (env : Env) (wf : Int → Bool) (command_str : List Char)
    (fd_in fd_out : Nat) (full : List Char) (is_background : Int) (s : Shell) :
    execute_single_command env wf command_str fd_in fd_out full is_background s =
      if (parse_redirection command_str (fresh_args)).ret = 0 then
        { s with stderr := s.stderr ++
            (parse_redirection command_str (fresh_args)).diag }
      else if (parse_redirection command_str (fresh_args)).out.args.getD
          0 cptr.uninit = cptr.null then
        { s with stderr := s.stderr ++
            (parse_redirection command_str (fresh_args)).diag }
      else if env.fork s.fork_calls < 0 then
        { s with
          stderr := s.stderr ++
            (parse_redirection command_str (fresh_args)).diag ++
            [Diag.perror "fork".toList]
          fork_calls := s.fork_calls + 1 }
      else if env.fork s.fork_calls = 0 then
        { s with
          stderr := s.stderr ++
            (parse_redirection command_str (fresh_args)).diag
          fork_calls := s.fork_calls + 1 }
      else
        parent_branch (env.fork s.fork_calls)
          (child_of (env.fork s.fork_calls)
            (parse_redirection command_str (fresh_args)) fd_in fd_out)
          wf fd_in fd_out full is_background
          { s with
            stderr := s.stderr ++
              (parse_redirection command_str (fresh_args)).diag
            fork_calls := s.fork_calls + 1 } := by
  rfl

theorem close_if_fields (std fd : Nat) (s : Shell) :
    (if fd ≠ std then sys_close fd s else s).open_fds = close_unless std fd s.open_fds ∧
    (if fd ≠ std then sys_close fd s else s).pipes = s.pipes ∧
    (if fd ≠ std then sys_close fd s else s).children = s.children := by
  unfold close_unless
  split <;> exact ⟨rfl, rfl, rfl⟩

theorem parent_branch_fields (pid : Int) (child : Child) (wf : Int → Bool) (fd_in fd_out : Nat)
    (full : List Char) (is_background : Int) (s : Shell)
    (hpid : child.pid = pid) (hw : child.waited = false) :
    (parent_branch pid child wf fd_in fd_out full is_background s).pipes = s.pipes ∧
    (parent_branch pid child wf fd_in fd_out full is_background s).open_fds =
      close_unless STDOUT_FILENO fd_out (close_unless STDIN_FILENO fd_in s.open_fds) ∧
    (parent_branch pid child wf fd_in fd_out full is_background s).children =
      s.children ++ [{ child with waited := decide (is_background = 0) }] := by
  obtain ⟨a1, a2, a3⟩ := add_job_os pid full is_background
    { s with children := s.children ++ [child] }
  obtain ⟨b1, b2, b3⟩ := close_if_fields STDIN_FILENO fd_in
    (add_job pid full is_background { s with children := s.children ++ [child] })
  obtain ⟨c1, c2, c3⟩ := close_if_fields STDOUT_FILENO fd_out
    (if fd_in ≠ STDIN_FILENO then
      sys_close fd_in
        (add_job pid full is_background { s with children := s.children ++ [child] })
     else add_job pid full is_background { s with children := s.children ++ [child] })
  unfold parent_branch
  dsimp only
  by_cases hbg : is_background = 0
  · rw [if_pos hbg]
    obtain ⟨d1, d2, d3⟩ := remove_job_by_pid_os pid
      (sys_waitpid pid (wf pid) "waitpid".toList
        (if fd_out ≠ STDOUT_FILENO then
          sys_close fd_out
            (if fd_in ≠ STDIN_FILENO then
              sys_close fd_in
                (add_job pid full is_background { s with children := s.children ++ [child] })
             else add_job pid full is_background { s with children := s.children ++ [child] })
         else
          if fd_in ≠ STDIN_FILENO then
            sys_close fd_in
              (add_job pid full is_background { s with children := s.children ++ [child] })
          else add_job pid full is_background { s with children := s.children ++ [child] }))
    rw [d1, d2, d3]
    refine ⟨?_, ?_, ?_⟩
    · show (if fd_out ≠ STDOUT_FILENO then _ else _ : Shell).pipes = _
      rw [c2, b2, a2]
    · show (if fd_out ≠ STDOUT_FILENO then _ else _ : Shell).open_fds = _
      rw [c1, b1, a1]
    · show mark_waited pid (if fd_out ≠ STDOUT_FILENO then _ else _ : Shell).children = _
      rw [c3, b3, a3]
      show mark_waited pid (s.children ++ [child]) = _
      rw [mark_waited_append pid s.children child hpid]
      simp [hbg]
  · rw [if_neg hbg]
    rw [c1, c2, c3, b1, b2, b3, a1, a2, a3]
    refine ⟨rfl, rfl, ?_⟩
    show s.children ++ [child] = _
    have : ({ child with waited := decide (is_background = 0) } : Child) = child := by
      cases child
      simp only at hw
      simp [hbg, hw]
    rw [this]

/-- One call of `execute_single_command` creates no pipe; it either
creates no child, or creates exactly one, on which it has issued a blocking
wait exactly when its flag is 0, and has closed `fd_in` unless it is
standard input and `fd_out` unless it is standard output. -/
theorem execute_single_command_cases (env : Env) (wf : Int → Bool) (command_str : List Char)
    (fd_in fd_out : Nat) (full : List Char) (is_background : Int) (s : Shell) :
    (execute_single_command env wf command_str fd_in fd_out full is_background s).pipes
      = s.pipes ∧
    ((execute_single_command env wf command_str fd_in fd_out full is_background s).children
        = s.children ∨
      ∃ c : Child,
        (execute_single_command env wf command_str fd_in fd_out full is_background s).children
          = s.children ++ [c] ∧
        c.waited = decide (is_background = 0) ∧
        (execute_single_command env wf command_str fd_in fd_out full is_background s).open_fds
          = close_unless STDOUT_FILENO fd_out (close_unless STDIN_FILENO fd_in s.open_fds)) := by
  rw [execute_single_command_eq]
  split
  · exact ⟨rfl, Or.inl rfl⟩
  · split
    · exact ⟨rfl, Or.inl rfl⟩
    · split
      · exact ⟨rfl, Or.inl rfl⟩
      · split
        · exact ⟨rfl, Or.inl rfl⟩
        · obtain ⟨h1, h2, h3⟩ := parent_branch_fields (env.fork s.fork_calls)
            (child_of (env.fork s.fork_calls)
              (parse_redirection command_str (fresh_args)) fd_in fd_out)
            wf fd_in fd_out full is_background
            { s with
              stderr := s.stderr ++
                (parse_redirection command_str (fresh_args)).diag
              fork_calls := s.fork_calls + 1 } rfl rfl
          exact ⟨h1, Or.inr ⟨_, h3, rfl, h2⟩⟩

/-! ### The orchestrator: descriptors handed out by `pipe` -/

/-- Among `0 .. fds.length` some number is not in `fds`, so the search of
`lowest_free` always succeeds. -/
theorem lowest_free_search (fds : List Nat) :
    ∃ n, first_index (fun n => decide (n ∉ fds)) (fds.length + 1) 0 = some n := by
  cases h : first_index (fun n => decide (n ∉ fds)) (fds.length + 1) 0 with
  | some n => exact ⟨n, rfl⟩
  | none =>
    exfalso
    have hall : ∀ j, j < fds.length + 1 → j ∈ fds := by
      intro j hj
      have := first_index_none h j (Nat.zero_le j) (by omega)
      simpa using this
    have hsub : List.range (fds.length + 1) ⊆ fds := by
      intro j hj
      exact hall j (List.mem_range.mp hj)
    have := (List.subperm_of_subset (List.nodup_range _) hsub).length_le
    simp at this

/-- The descriptor `lowest_free fds` is unused, and every smaller number is
in use. -/
theorem lowest_free_spec (fds : List Nat) :
    lowest_free fds ∉ fds ∧ ∀ m, m < lowest_free fds → m ∈ fds := by
  obtain ⟨n, hn⟩ := lowest_free_search fds
  obtain ⟨_, _, h3, h4⟩ := first_index_some hn
  have : lowest_free fds = n := by
    unfold lowest_free
    rw [hn]
  rw [this]
  refine ⟨by simpa using h3, fun m hm => ?_⟩
  simpa using h4 m (Nat.zero_le m) hm

/-! ### The orchestrator: the loop over the stages -/

theorem pipeline_loop_last (env : Env) (wf : Int → Bool) (full : List Char) (bg : Int)
    (num : Nat) (command : List Char) (rest : List (List Char)) (i fd_in : Nat) (s : Shell)
    (h : ¬ i < num - 1) :
    pipeline_loop env wf full bg num (command :: rest) i fd_in s =
      pipeline_loop env wf full bg num rest (i + 1) fd_in
        (execute_single_command env wf command fd_in STDOUT_FILENO full
          (background_flag bg i num) s) := by
  rw [pipeline_loop, if_neg h]

theorem pipeline_loop_pipe_failed (env : Env) (wf : Int → Bool) (full : List Char) (bg : Int)
    (num : Nat) (command : List Char) (rest : List (List Char)) (i fd_in : Nat) (s : Shell)
    (h : i < num - 1) (hp : env.pipe s.pipe_calls = false) :
    pipeline_loop env wf full bg num (command :: rest) i fd_in s =
      (0, { s with
            pipe_calls := s.pipe_calls + 1
            stderr := s.stderr ++ [Diag.perror "pipe".toList] }) := by
  rw [pipeline_loop, if_pos h]
  simp [sys_pipe, hp]

theorem pipeline_loop_pipe_ok (env : Env) (wf : Int → Bool) (full : List Char) (bg : Int)
    (num : Nat) (command : List Char) (rest : List (List Char)) (i fd_in : Nat) (s : Shell)
    (h : i < num - 1) (hp : env.pipe s.pipe_calls = true) :
    pipeline_loop env wf full bg num (command :: rest) i fd_in s =
      pipeline_loop env wf full bg num rest (i + 1) (lowest_free s.open_fds)
        (sys_close (lowest_free (lowest_free s.open_fds :: s.open_fds))
          (execute_single_command env wf command fd_in
            (lowest_free (lowest_free s.open_fds :: s.open_fds)) full
            (background_flag bg i num)
            { s with
              open_fds := s.open_fds ++
                [lowest_free s.open_fds, lowest_free (lowest_free s.open_fds :: s.open_fds)]
              pipes := s.pipes ++
                [(lowest_free s.open_fds, lowest_free (lowest_free s.open_fds :: s.open_fds))]
              pipe_calls := s.pipe_calls + 1 })) := by
  rw [pipeline_loop, if_pos h]
  simp [sys_pipe, hp]

theorem pipeline_loop_children_le (env : Env) (wf : Int → Bool) (full : List Char) (bg : Int)
    (num : Nat) (cmds : List (List Char)) :
    ∀ (i fd_in : Nat) (s : Shell),
      (pipeline_loop env wf full bg num cmds i fd_in s).2.children.length ≤
        s.children.length + cmds.length := by
  induction cmds with
  | nil => intro i fd_in s; simp [pipeline_loop]
  | cons command rest ih =>
    intro i fd_in s
    have hesc : ∀ (fd_out : Nat) (t : Shell),
        (execute_single_command env wf command fd_in fd_out full
          (background_flag bg i num) t).children.length ≤ t.children.length + 1 := by
      intro fd_out t
      rcases (execute_single_command_cases env wf command fd_in fd_out full
        (background_flag bg i num) t).2 with h | ⟨c, h, _, _⟩
      · rw [h]; omega
      · rw [h]; simp
    by_cases hlast : i < num - 1
    · cases hp : env.pipe s.pipe_calls with
      | false =>
        rw [pipeline_loop_pipe_failed env wf full bg num command rest i fd_in s hlast hp]
        simp only [List.length_cons]
        omega
      | true =>
        rw [pipeline_loop_pipe_ok env wf full bg num command rest i fd_in s hlast hp]
        refine le_trans (ih _ _ _) ?_
        have := hesc (lowest_free (lowest_free s.open_fds :: s.open_fds))
          { s with
            open_fds := s.open_fds ++
              [lowest_free s.open_fds, lowest_free (lowest_free s.open_fds :: s.open_fds)]
            pipes := s.pipes ++
              [(lowest_free s.open_fds, lowest_free (lowest_free s.open_fds :: s.open_fds))]
            pipe_calls := s.pipe_calls + 1 }
        simp only [List.length_cons, (sys_close_fields _ _).2.2] at this ⊢
        omega
    · rw [pipeline_loop_last env wf full bg num command rest i fd_in s hlast]
      refine le_trans (ih _ _ _) ?_
      have := hesc STDOUT_FILENO s
      simp only [List.length_cons]
      omega

theorem pipeline_loop_waits (env : Env) (wf : Int → Bool) (full : List Char) (bg : Int)
    (num : Nat) (cmds : List (List Char)) :
    ∀ (i fd_in : Nat) (s : Shell), i + cmds.length = num →
      (pipeline_loop env wf full bg num cmds i fd_in s).2.children.length =
        s.children.length + cmds.length →
      ∃ cs, (pipeline_loop env wf full bg num cmds i fd_in s).2.children = s.children ++ cs ∧
        cs.map (fun c => c.waited) = expected_waits bg num i cmds.length := by
  induction cmds with
  | nil => intro i fd_in s _ _; exact ⟨[], by simp [pipeline_loop], rfl⟩
  | cons command rest ih =>
    intro i fd_in s hnum hcount
    have step : ∀ (fd_out fd_next : Nat) (t : Shell) (close : Shell → Shell),
        t.children = s.children →
        (∀ u, (close u).children = u.children) →
        (pipeline_loop env wf full bg num rest (i + 1) fd_next
          (close (execute_single_command env wf command fd_in fd_out full
            (background_flag bg i num) t))).2.children.length =
          s.children.length + (command :: rest).length →
        ∃ cs, (pipeline_loop env wf full bg num rest (i + 1) fd_next
          (close (execute_single_command env wf command fd_in fd_out full
            (background_flag bg i num) t))).2.children = s.children ++ cs ∧
          cs.map (fun c => c.waited) = expected_waits bg num i (command :: rest).length := by
      intro fd_out fd_next t close ht hclose hc
      have hle := pipeline_loop_children_le env wf full bg num rest (i + 1) fd_next
        (close (execute_single_command env wf command fd_in fd_out full
          (background_flag bg i num) t))
      rw [hclose] at hle
      rcases (execute_single_command_cases env wf command fd_in fd_out full
        (background_flag bg i num) t).2 with h | ⟨c, h, hw, _⟩
      · rw [h, ht] at hle
        simp only [List.length_cons] at hc
        omega
      · have hlen : (close (execute_single_command env wf command fd_in fd_out full
            (background_flag bg i num) t)).children = s.children ++ [c] := by
          rw [hclose, h, ht]
        obtain ⟨cs, hcs, hwaits⟩ := ih (i + 1) fd_next _ (by simp at hnum ⊢; omega)
          (by rw [hc, hlen]; simp; omega)
        refine ⟨c :: cs, by rw [hcs, hlen]; simp, ?_⟩
        simp only [List.map_cons, hw, hwaits, expected_waits, List.length_cons,
          List.range'_succ]
    by_cases hlast : i < num - 1
    · cases hp : env.pipe s.pipe_calls with
      | false =>
        rw [pipeline_loop_pipe_failed env wf full bg num command rest i fd_in s hlast hp]
          at hcount
        simp only [List.length_cons] at hcount
        omega
      | true =>
        rw [pipeline_loop_pipe_ok env wf full bg num command rest i fd_in s hlast hp]
          at hcount ⊢
        exact step _ _ _ (sys_close _) rfl (fun u => rfl) hcount
    · rw [pipeline_loop_last env wf full bg num command rest i fd_in s hlast] at hcount ⊢
      exact step _ _ s id rfl (fun u => rfl) hcount

theorem filter_ne_base {base : List Nat} {x : Nat} (h : x ∉ base) :
    base.filter (fun y => decide (y ≠ x)) = base := by
  rw [List.filter_eq_self]
  intro a ha
  have : a ≠ x := fun e => h (e ▸ ha)
  simpa using this

theorem filter_close_stdout (w : Nat) (fds : List Nat) :
    (close_unless STDOUT_FILENO w fds).filter (fun x => decide (x ≠ w)) =
      fds.filter (fun x => decide (x ≠ w)) := by
  unfold close_unless
  split
  · rw [List.filter_filter]
    congr 1
    funext a
    simp
  · rfl

theorem close_chain_first {base : List Nat} {r w : Nat} (hw : w ∉ base) (hwr : w ≠ r) :
    (close_unless STDOUT_FILENO w
      (close_unless STDIN_FILENO STDIN_FILENO (base ++ [r, w]))).filter
        (fun x => decide (x ≠ w)) = base ++ [r] := by
  rw [filter_close_stdout]
  have h0 : close_unless STDIN_FILENO STDIN_FILENO (base ++ [r, w]) = base ++ [r, w] := by
    simp [close_unless]
  rw [h0, List.filter_append, filter_ne_base hw]
  congr 1
  simp [List.filter_cons, hwr.symm]

theorem close_chain_next {base : List Nat} {fd_in r w : Nat} (hfd : fd_in ∉ base)
    (hne : fd_in ≠ STDIN_FILENO) (hw : w ∉ base) (hwr : w ≠ r) (hrf : r ≠ fd_in)
    (hwf : w ≠ fd_in) :
    (close_unless STDOUT_FILENO w
      (close_unless STDIN_FILENO fd_in (base ++ [fd_in] ++ [r, w]))).filter
        (fun x => decide (x ≠ w)) = base ++ [r] := by
  rw [filter_close_stdout]
  have h0 : close_unless STDIN_FILENO fd_in (base ++ [fd_in] ++ [r, w]) = base ++ [r, w] := by
    unfold close_unless
    rw [if_pos hne, List.filter_append, List.filter_append, filter_ne_base hfd]
    simp [List.filter_cons, hrf, hwf]
  rw [h0, List.filter_append, filter_ne_base hw]
  congr 1
  simp [List.filter_cons, hwr.symm]

theorem close_last {base : List Nat} {fd_in : Nat} (hfd : fd_in ∉ base)
    (hne : fd_in ≠ STDIN_FILENO) :
    close_unless STDOUT_FILENO STDOUT_FILENO
      (close_unless STDIN_FILENO fd_in (base ++ [fd_in])) = base := by
  unfold close_unless
  rw [if_neg (by simp), if_pos hne, List.filter_append, filter_ne_base hfd]
  simp

theorem pipeline_loop_fds (env : Env) (wf : Int → Bool) (full : List Char) (bg : Int)
    (num : Nat) (base : List Nat) (hstdin : STDIN_FILENO ∈ base) (cmds : List (List Char)) :
    ∀ (i fd_in : Nat) (s : Shell), cmds ≠ [] → i + cmds.length = num →
      ((fd_in = STDIN_FILENO ∧ s.open_fds = base) ∨
        (fd_in ∉ base ∧ s.open_fds = base ++ [fd_in])) →
      (pipeline_loop env wf full bg num cmds i fd_in s).2.children.length =
        s.children.length + cmds.length →
      (pipeline_loop env wf full bg num cmds i fd_in s).1 = 1 ∧
      (pipeline_loop env wf full bg num cmds i fd_in s).2.open_fds = base ∧
      ∃ ps, (pipeline_loop env wf full bg num cmds i fd_in s).2.pipes = s.pipes ++ ps ∧
        ps.length + 1 = cmds.length ∧ ∀ p ∈ ps, p.1 ∉ base ∧ p.2 ∉ base := by
  induction cmds with
  | nil => intro i fd_in s h; exact absurd rfl h
  | cons command rest ih =>
    intro i fd_in s _ hnum hfd hcount
    have hin0 : fd_in ∉ base → fd_in ≠ STDIN_FILENO := fun h e => h (e ▸ hstdin)
    by_cases hlast : i < num - 1
    · cases hp : env.pipe s.pipe_calls with
      | false =>
        rw [pipeline_loop_pipe_failed env wf full bg num command rest i fd_in s hlast hp]
          at hcount
        simp only [List.length_cons] at hcount
        omega
      | true =>
        rw [pipeline_loop_pipe_ok env wf full bg num command rest i fd_in s hlast hp]
          at hcount ⊢
        obtain ⟨hr, _⟩ := lowest_free_spec s.open_fds
        obtain ⟨hw, _⟩ := lowest_free_spec (lowest_free s.open_fds :: s.open_fds)
        generalize lowest_free s.open_fds = r at hr hw hcount ⊢
        generalize lowest_free (r :: s.open_fds) = w at hw hcount ⊢
        have hwr : w ≠ r := fun e => hw (e ▸ List.mem_cons_self _ _)
        have hw' : w ∉ s.open_fds := fun h => hw (List.mem_cons_of_mem _ h)
        have hrest : rest ≠ [] := by
          intro e
          subst e
          simp at hnum
          omega
        have hle := pipeline_loop_children_le env wf full bg num rest (i + 1) r
          (sys_close w (execute_single_command env wf command fd_in w full
            (background_flag bg i num)
            { s with
              open_fds := s.open_fds ++ [r, w]
              pipes := s.pipes ++ [(r, w)]
              pipe_calls := s.pipe_calls + 1 }))
        obtain ⟨hpipes, hcases⟩ := execute_single_command_cases env wf command fd_in w full
          (background_flag bg i num)
          { s with
            open_fds := s.open_fds ++ [r, w]
            pipes := s.pipes ++ [(r, w)]
            pipe_calls := s.pipe_calls + 1 }
        rcases hcases with h | ⟨c, h, _, hopen⟩
        · rw [(sys_close_fields _ _).2.2, h] at hle
          simp only [List.length_cons] at hcount hle
          omega
        · have hbase_r : r ∉ base := by
            rcases hfd with ⟨_, hb⟩ | ⟨_, hb⟩
            · rw [← hb]; exact hr
            · intro hmem; apply hr; rw [hb]; exact List.mem_append_left _ hmem
          have hbase_w : w ∉ base := by
            rcases hfd with ⟨_, hb⟩ | ⟨_, hb⟩
            · rw [← hb]; exact hw'
            · intro hmem; apply hw'; rw [hb]; exact List.mem_append_left _ hmem
          have hopen3 : (sys_close w (execute_single_command env wf command fd_in w full
              (background_flag bg i num)
              { s with
                open_fds := s.open_fds ++ [r, w]
                pipes := s.pipes ++ [(r, w)]
                pipe_calls := s.pipe_calls + 1 })).open_fds = base ++ [r] := by
            rw [(sys_close_fields _ _).1, hopen]
            rcases hfd with ⟨h0, hb⟩ | ⟨hnb, hb⟩
            · subst h0
              show List.filter _ (close_unless STDOUT_FILENO w
                (close_unless STDIN_FILENO STDIN_FILENO (s.open_fds ++ [r, w]))) = _
              rw [hb]
              exact close_chain_first hbase_w hwr
            · have hne := hin0 hnb
              have hrf : r ≠ fd_in := by
                intro e; apply hr; rw [hb, e]; simp
              have hwf : w ≠ fd_in := by
                intro e; apply hw'; rw [hb, e]; simp
              show List.filter _ (close_unless STDOUT_FILENO w
                (close_unless STDIN_FILENO fd_in (s.open_fds ++ [r, w]))) = _
              rw [hb]
              exact close_chain_next hnb hne hbase_w hwr hrf hwf
          have hchildren3 : (sys_close w (execute_single_command env wf command fd_in w full
              (background_flag bg i num)
              { s with
                open_fds := s.open_fds ++ [r, w]
                pipes := s.pipes ++ [(r, w)]
                pipe_calls := s.pipe_calls + 1 })).children = s.children ++ [c] := by
            rw [(sys_close_fields _ _).2.2, h]
          have hpipes3 : (sys_close w (execute_single_command env wf command fd_in w full
              (background_flag bg i num)
              { s with
                open_fds := s.open_fds ++ [r, w]
                pipes := s.pipes ++ [(r, w)]
                pipe_calls := s.pipe_calls + 1 })).pipes = s.pipes ++ [(r, w)] := by
            rw [(sys_close_fields _ _).2.1, hpipes]
          obtain ⟨h1, h2, ps, h3, h4, h5⟩ := ih (i + 1) r _ hrest
            (by simp at hnum ⊢; omega) (Or.inr ⟨hbase_r, hopen3⟩)
            (by rw [hcount, hchildren3]; simp; omega)
          refine ⟨h1, h2, (r, w) :: ps, by rw [h3, hpipes3]; simp, by simp; omega, ?_⟩
          intro p hp
          rcases List.mem_cons.mp hp with e | hmem
          · subst e; exact ⟨hbase_r, hbase_w⟩
          · exact h5 p hmem
    · have hrest : rest = [] := by
        cases rest with
        | nil => rfl
        | cons a l => simp at hnum; omega
      subst hrest
      rw [pipeline_loop_last env wf full bg num command [] i fd_in s hlast] at hcount ⊢
      simp only [pipeline_loop] at hcount ⊢
      obtain ⟨hpipes, hcases⟩ := execute_single_command_cases env wf command fd_in
        STDOUT_FILENO full (background_flag bg i num) s
      rcases hcases with h | ⟨c, _, _, hopen⟩
      · rw [h] at hcount
        simp at hcount
      · refine ⟨trivial, ?_, [], by rw [hpipes]; simp, rfl, by simp⟩
        rw [hopen]
        rcases hfd with ⟨h0, hb⟩ | ⟨hnb, hb⟩
        · subst h0
          simp [close_unless, hb]
        · rw [hb]
          exact close_last hnb (hin0 hnb)

/-! ### The orchestrator: `execute_pipeline_or_builtin` -/

theorem print_jobs_children (s : Shell) : (print_jobs s).children = s.children := by
  unfold print_jobs
  dsimp only
  split <;> rfl

/-- A call of `execute_pipeline_or_builtin` either creates no child (empty
line or builtin) or is the loop over the stages of the line. -/
theorem execute_pipeline_or_builtin_cases (env : Env) (faults : Faults) (line full : List Char)
    (s : Shell) :
    (execute_pipeline_or_builtin env faults line full s).2.children.length
      = s.children.length ∨
    execute_pipeline_or_builtin env faults line full s =
      pipeline_loop env faults.waitpid_failed full (strip_background line).1
        (split_commands (strip_background line).2).length
        (split_commands (strip_background line).2) 0 STDIN_FILENO s := by
  unfold execute_pipeline_or_builtin
  dsimp only
  cases hc : split_commands (strip_background line).2 with
  | nil => left; rfl
  | cons command0 rest =>
    dsimp only
    by_cases h1 : (strtok_r is_space command0).1 = some "exit".toList
    · left; rw [if_pos h1]
    rw [if_neg h1]
    by_cases h2 : (strtok_r is_space command0).1 = some "cd".toList
    · left
      rw [if_pos h2]
      split
      · split <;> rfl
      · rfl
    rw [if_neg h2]
    by_cases h3 : (strtok_r is_space command0).1 = some "jobs".toList
    · left; rw [if_pos h3]; exact congrArg List.length (print_jobs_children s)
    rw [if_neg h3]
    by_cases h4 : (strtok_r is_space command0).1 = some "fg".toList
    · left
      rw [if_pos h4]
      split
      · split
        · dsimp only
          rw [(remove_job_by_pid_os _ _).2.2]
          exact mark_waited_length _ _
        · rfl
      · rfl
    rw [if_neg h4]
    right
    rfl

theorem split_commands_length_le (line : List Char) :
    (split_commands line).length ≤ MAX_COMMANDS := by
  unfold split_commands
  simp [List.length_take]

/-- C2. A pipeline of `k ≥ 1` stages (`k` is at most `MAX_COMMANDS`,
`split_commands_length_le`) all of whose stages are spawned (the call
creates `k` child processes, which needs every stage to parse to a
non-empty argument vector, every `pipe` and every `fork` to succeed), run
by a shell whose standard input is open: the call creates exactly `k - 1`
pipes, and when it returns neither end of any of them is open in the shell;
the shell's open descriptors are those it had before the call. -/
theorem pipeline_pipes_closed (env : Env) (faults : Faults) (line full : List Char)
    (s : Shell) (k : Nat)
    (hk : (split_commands (strip_background line).2).length = k) (h1 : 1 ≤ k)
    (hspawn : (execute_pipeline_or_builtin env faults line full s).2.children.length =
      s.children.length + k)
    (hstdin : STDIN_FILENO ∈ s.open_fds) :
    k ≤ MAX_COMMANDS ∧
    (execute_pipeline_or_builtin env faults line full s).1 = 1 ∧
    (∃ ps, (execute_pipeline_or_builtin env faults line full s).2.pipes = s.pipes ++ ps ∧
      ps.length = k - 1 ∧
      ∀ p ∈ ps,
        p.1 ∉ (execute_pipeline_or_builtin env faults line full s).2.open_fds ∧
        p.2 ∉ (execute_pipeline_or_builtin env faults line full s).2.open_fds) ∧
    (execute_pipeline_or_builtin env faults line full s).2.open_fds = s.open_fds := by
  rcases execute_pipeline_or_builtin_cases env faults line full s with h | h
  · rw [h] at hspawn; omega
  · rw [h] at hspawn ⊢
    have hne : split_commands (strip_background line).2 ≠ [] := by
      intro e; rw [e] at hk; simp at hk; omega
    obtain ⟨r1, r2, ps, r3, r4, r5⟩ := pipeline_loop_fds env faults.waitpid_failed full
      (strip_background line).1 (split_commands (strip_background line).2).length
      s.open_fds hstdin (split_commands (strip_background line).2) 0 STDIN_FILENO s hne
      (by simp) (Or.inl ⟨rfl, rfl⟩) (by rw [hspawn, hk])
    refine ⟨by rw [← hk]; exact split_commands_length_le _, r1, ⟨ps, r3, by omega, ?_⟩, r2⟩
    rw [r2]
    exact r5

/-- C2 at a concrete input: the three-stage line `ls -l | grep x | wc`. -/
theorem pipeline_pipes_closed_witness :
    (split_commands (strip_background "ls -l | grep x | wc".toList).2).length = 3 ∧
    (run_line "ls -l | grep x | wc".toList).2.children.length =
      init_shell.children.length + 3 ∧
    (run_line "ls -l | grep x | wc".toList).2.pipes = [(3, 4), (4, 5)] ∧
    (3 ≤ MAX_COMMANDS ∧
    (run_line "ls -l | grep x | wc".toList).1 = 1 ∧
    (∃ ps, (run_line "ls -l | grep x | wc".toList).2.pipes = init_shell.pipes ++ ps ∧
      ps.length = 3 - 1 ∧
      ∀ p ∈ ps,
        p.1 ∉ (run_line "ls -l | grep x | wc".toList).2.open_fds ∧
        p.2 ∉ (run_line "ls -l | grep x | wc".toList).2.open_fds) ∧
    (run_line "ls -l | grep x | wc".toList).2.open_fds = init_shell.open_fds) :=
  ⟨by decide, by decide, by decide,
   pipeline_pipes_closed env_ok no_faults "ls -l | grep x | wc".toList
     "ls -l | grep x | wc".toList init_shell 3 (by decide) (by decide) (by decide)
     (by decide)⟩

/-- The blocking waits of a pipeline all of whose `k` stages are spawned:
the children of the call, in stage order, carry the wait marks
`expected_waits`, that is, stage `j` is waited on unless the pipeline is
background and `j` is the last stage. -/
theorem pipeline_waits_all (env : Env) (faults : Faults) (line full : List Char)
    (s : Shell) (k : Nat)
    (hk : (split_commands (strip_background line).2).length = k) (h1 : 1 ≤ k)
    (hspawn : (execute_pipeline_or_builtin env faults line full s).2.children.length =
      s.children.length + k) :
    ∃ cs, (execute_pipeline_or_builtin env faults line full s).2.children = s.children ++ cs ∧
      cs.map (fun c => c.waited) = expected_waits (strip_background line).1 k 0 k := by
  rcases execute_pipeline_or_builtin_cases env faults line full s with h | h
  · rw [h] at hspawn; omega
  · rw [h] at hspawn ⊢
    have := pipeline_loop_waits env faults.waitpid_failed full
      (strip_background line).1 (split_commands (strip_background line).2).length
      (split_commands (strip_background line).2) 0 STDIN_FILENO s (by simp)
      (by rw [hspawn, hk])
    rw [← hk]
    exact this

/-- C1, the claim at concrete lines. In the foreground line `ls | wc` both
stages are spawned (process ids 100 and 101) and the first stage, which is
not the last, is waited on; in the background line `ls | wc &` the first
stage is waited on as well. So "waited on if and only if foreground and
last" fails at stage 0 of either line. -/
theorem pipeline_wait_counterexample :
    (split_commands (strip_background "ls | wc".toList).2).length = 2 ∧
    (strip_background "ls | wc".toList).1 = 0 ∧
    (run_line "ls | wc".toList).2.children.map (fun c => (c.pid, c.waited)) =
      [(100, true), (101, true)] ∧
    (split_commands (strip_background "ls | wc &".toList).2).length = 2 ∧
    (strip_background "ls | wc &".toList).1 = 1 ∧
    (run_line "ls | wc &".toList).2.children.map (fun c => (c.pid, c.waited)) =
      [(100, true), (101, false)] ∧
    ¬ (∀ j, j < 2 →
      ((((run_line "ls | wc".toList).2.children.map fun c => c.waited).getD j false = true) ↔
        ((strip_background "ls | wc".toList).1 = 0 ∧ j = 2 - 1))) ∧
    ¬ (∀ j, j < 2 →
      ((((run_line "ls | wc &".toList).2.children.map fun c => c.waited).getD j false = true) ↔
        ((strip_background "ls | wc &".toList).1 = 0 ∧ j = 2 - 1))) := by
  decide

/-- C1, amended. For a pipeline of `k ≥ 1` stages all of which are spawned
(the call creates `k` child processes): when the pipeline is foreground the
orchestrator issues a blocking wait on the process of every stage, not only
the last; when it is background it issues no blocking wait on the process
of the last stage. -/
theorem pipeline_waits (env : Env) (faults : Faults) (line full : List Char)
    (s : Shell) (k : Nat)
    (hk : (split_commands (strip_background line).2).length = k) (h1 : 1 ≤ k)
    (hspawn : (execute_pipeline_or_builtin env faults line full s).2.children.length =
      s.children.length + k) :
    ∃ cs, (execute_pipeline_or_builtin env faults line full s).2.children = s.children ++ cs ∧
      cs.length = k ∧
      ((strip_background line).1 = 0 → ∀ c ∈ cs, c.waited = true) ∧
      ((strip_background line).1 ≠ 0 → ∃ c, cs.getLast? = some c ∧ c.waited = false) := by
  obtain ⟨cs, hcs, hw⟩ := pipeline_waits_all env faults line full s k hk h1 hspawn
  have hlen : cs.length = k := by
    have := congrArg List.length hw
    simpa [expected_waits] using this
  refine ⟨cs, hcs, hlen, ?_, ?_⟩
  · intro hfg c hc
    have hmem : c.waited ∈ cs.map (fun c => c.waited) := List.mem_map_of_mem _ hc
    rw [hw] at hmem
    simp only [expected_waits, List.mem_map] at hmem
    obtain ⟨idx, _, hidx⟩ := hmem
    rw [← hidx]
    simp [background_flag, hfg]
  · intro hbg
    have hne : cs ≠ [] := by
      intro e; rw [e] at hlen; simp at hlen; omega
    obtain ⟨c, hc⟩ : ∃ c, cs.getLast? = some c := by
      cases hl : cs.getLast? with
      | none => exact absurd (List.getLast?_eq_none_iff.mp hl) hne
      | some c => exact ⟨c, rfl⟩
    refine ⟨c, hc, ?_⟩
    have h2 : (cs.map (fun c => c.waited)).getLast? = some c.waited := by
      rw [List.getLast?_map, hc]; rfl
    rw [hw, List.getLast?_eq_getElem?] at h2
    simp only [expected_waits, List.length_map, List.length_range', List.getElem?_map] at h2
    have hlt : k - 1 < k := by omega
    rw [List.getElem?_range' 0 1 hlt] at h2
    simp only [Option.map_some', Option.some.injEq, zero_add, one_mul] at h2
    rw [← h2]
    simp [background_flag, hbg]

/-- C1 amended, at concrete inputs: the lines `ls | wc` and `ls | wc &`. -/
theorem pipeline_waits_witness :
    (∃ cs, (run_line "ls | wc".toList).2.children = init_shell.children ++ cs ∧
      cs.length = 2 ∧
      ((strip_background "ls | wc".toList).1 = 0 → ∀ c ∈ cs, c.waited = true) ∧
      ((strip_background "ls | wc".toList).1 ≠ 0 →
        ∃ c, cs.getLast? = some c ∧ c.waited = false)) ∧
    (∃ cs, (run_line "ls | wc &".toList).2.children = init_shell.children ++ cs ∧
      cs.length = 2 ∧
      ((strip_background "ls | wc &".toList).1 = 0 → ∀ c ∈ cs, c.waited = true) ∧
      ((strip_background "ls | wc &".toList).1 ≠ 0 →
        ∃ c, cs.getLast? = some c ∧ c.waited = false)) :=
  ⟨pipeline_waits env_ok no_faults "ls | wc".toList "ls | wc".toList init_shell 2
      (by decide) (by decide) (by decide),
   pipeline_waits env_ok no_faults "ls | wc &".toList "ls | wc &".toList init_shell 2
      (by decide) (by decide) (by decide)⟩

/-! ### When every stage is spawned -/

theorem argv_ne_nil {args : List cptr} (h : argv args ≠ []) :
    args.getD 0 cptr.uninit ≠ cptr.null := by
  cases args with
  | nil => exact absurd rfl h
  | cons a rest =>
    cases a with
    | uninit => simp
    | null => exact absurd rfl h
    | str x => simp

theorem execute_single_command_spawns (env : Env) (wf : Int → Bool) (command_str : List Char)
    (fd_in fd_out : Nat) (full : List Char) (is_background : Int) (s : Shell)
    (hrun : runnable command_str) (hfork : env.fork s.fork_calls > 0) :
    (execute_single_command env wf command_str fd_in fd_out full is_background s).children.length
      = s.children.length + 1 := by
  obtain ⟨h1, h2⟩ := hrun
  rw [execute_single_command_eq, if_neg (by rw [h1]; decide), if_neg (argv_ne_nil h2),
    if_neg (by omega), if_neg (by omega)]
  obtain ⟨_, _, h⟩ := parent_branch_fields (env.fork s.fork_calls)
    (child_of (env.fork s.fork_calls)
      (parse_redirection command_str (fresh_args)) fd_in fd_out)
    wf fd_in fd_out full is_background
    { s with
      stderr := s.stderr ++
        (parse_redirection command_str (fresh_args)).diag
      fork_calls := s.fork_calls + 1 } rfl rfl
  rw [h]
  simp

theorem pipeline_loop_spawns_all (env : Env) (wf : Int → Bool) (full : List Char) (bg : Int)
    (num : Nat) (hfork : ∀ n, env.fork n > 0) (hpipe : ∀ n, env.pipe n = true)
    (cmds : List (List Char)) :
    ∀ (i fd_in : Nat) (s : Shell), (∀ c ∈ cmds, runnable c) →
      (pipeline_loop env wf full bg num cmds i fd_in s).2.children.length =
        s.children.length + cmds.length := by
  induction cmds with
  | nil => intro i fd_in s _; simp [pipeline_loop]
  | cons command rest ih =>
    intro i fd_in s hrun
    have hrest : ∀ c ∈ rest, runnable c := fun c hc => hrun c (List.mem_cons_of_mem _ hc)
    have hcmd : runnable command := hrun command (List.mem_cons_self _ _)
    by_cases hlast : i < num - 1
    · rw [pipeline_loop_pipe_ok env wf full bg num command rest i fd_in s hlast (hpipe _),
        ih _ _ _ hrest, (sys_close_fields _ _).2.2,
        execute_single_command_spawns env wf command fd_in _ full _ _ hcmd (hfork _)]
      simp only [List.length_cons]
      omega
    · rw [pipeline_loop_last env wf full bg num command rest i fd_in s hlast,
        ih _ _ _ hrest,
        execute_single_command_spawns env wf command fd_in _ full _ _ hcmd (hfork _)]
      simp only [List.length_cons]
      omega

/-- Every stage is spawned, that is, the call creates one child process
per stage, when the first word is no builtin, every stage parses to a
non-empty argument vector, and every `pipe` and `fork` succeeds. -/
theorem all_spawned_of_env (env : Env) (faults : Faults) (line full : List Char) (s : Shell)
    (command0 : List Char) (rest : List (List Char))
    (hcmds : split_commands (strip_background line).2 = command0 :: rest)
    (hbuiltin : is_builtin command0 = false)
    (hrun : ∀ c ∈ split_commands (strip_background line).2, runnable c)
    (hfork : ∀ n, env.fork n > 0) (hpipe : ∀ n, env.pipe n = true) :
    (execute_pipeline_or_builtin env faults line full s).2.children.length =
      s.children.length + (split_commands (strip_background line).2).length := by
  have hloop := pipeline_loop_spawns_all env faults.waitpid_failed full
    (strip_background line).1 (split_commands (strip_background line).2).length hfork hpipe
    (split_commands (strip_background line).2) 0 STDIN_FILENO s hrun
  have heq : execute_pipeline_or_builtin env faults line full s =
      pipeline_loop env faults.waitpid_failed full (strip_background line).1
        (split_commands (strip_background line).2).length
        (split_commands (strip_background line).2) 0 STDIN_FILENO s := by
    simp only [is_builtin, Bool.or_eq_false_iff, decide_eq_false_iff_not] at hbuiltin
    obtain ⟨⟨⟨b1, b2⟩, b3⟩, b4⟩ := hbuiltin
    unfold execute_pipeline_or_builtin
    dsimp only
    rw [hcmds]
    dsimp only
    rw [if_neg b1, if_neg b2, if_neg b3, if_neg b4]
  rw [heq]
  exact hloop

end MiniShell
